import Mathlib

/-!
# Verification of the contract-helper core

Shallow embedding of the core of the `contract-helper` service
(`src/function_encoder.py`, `src/calldata_decoder.py`,
`src/signature_lookup.py`) together with theorems settling the frozen
claims about its specification.

Modelling conventions:
* Python strings are `List Char`; Python byte strings are `List Nat`
  (each element a byte value `< 256`).
* A Python function that may raise is embedded with result type
  `Except Err α`; a `try/except Exception` block of the source is the
  combinator `pyTry` placed exactly where the source places the `try`.
* The external keccak-256 hash (`eth_utils.keccak`) is an abstract
  parameter `k : List Char → List Nat` threaded through the encoder.
* The external ABI library (`eth_abi.encode` / `eth_abi.decode`) is
  modelled for the elementary static types `address`, `uint256`, `bool`
  per the standard ABI word layout; every other type string is rejected
  with an error, standing for the (larger) set of types of the real
  library.  The supported-type set of the round-trip claim is exactly
  this static subset.
* The remote 4byte.directory service is an abstract parameter
  `net : List Char → Except Err (Option (List Char))` returning the
  first candidate text signature, `none` for a non-200 reply or empty
  result set, and `Except.error` for a network failure.
* Exception message texts produced by Python library internals are
  modelled approximately (they carry no weight in any claim).
-/

abbrev Err := List Char

def s2l (s : String) : List Char := s.data

/-- ASCII lower-casing of one character (model of Python `str.lower` on
the ASCII data this service handles). -/
def lowerChar (c : Char) : Char :=
  if 'A' ≤ c ∧ c ≤ 'Z' then Char.ofNat (c.toNat + 32) else c

def pyLower (s : List Char) : List Char := s.map lowerChar

/-- Python whitespace characters (the set recognised by `str.strip`). -/
def isPyWs (c : Char) : Bool :=
  c = ' ' || c = '\t' || c = '\n' || c = '\r' || c = Char.ofNat 11 || c = Char.ofNat 12

/-- Model of Python `str.strip()`: remove leading and trailing whitespace. -/
def pyStrip (s : List Char) : List Char :=
  ((s.dropWhile isPyWs).reverse.dropWhile isPyWs).reverse

/-- Worker for `pyReplace`, structurally recursive on a fuel bound that
dominates the string length (so the fuel-exhausted branch is never
taken on the lengths `pyReplace` supplies). -/
def pyReplaceAux (pat rep : List Char) : Nat → List Char → List Char
  | _, [] => []
  | 0, s => s
  | fuel + 1, c :: cs =>
    if pat ≠ [] ∧ pat.isPrefixOf (c :: cs) then
      rep ++ pyReplaceAux pat rep fuel (cs.drop (pat.length - 1))
    else
      c :: pyReplaceAux pat rep fuel cs

/-- Model of Python `str.replace(pat, rep)`: replace every non-overlapping
occurrence of `pat`, scanning left to right.  The sources never call it
with an empty pattern; an empty pattern returns the string unchanged. -/
def pyReplace (pat rep s : List Char) : List Char :=
  pyReplaceAux pat rep s.length s

theorem pyReplaceAux_fuel (pat rep : List Char) :
    ∀ (f1 : Nat) (s : List Char) (f2 : Nat), s.length ≤ f1 → s.length ≤ f2 →
    pyReplaceAux pat rep f1 s = pyReplaceAux pat rep f2 s := by
  intro f1
  induction f1 with
  | zero =>
    intro s f2 h1 _
    have : s = [] := List.length_eq_zero.mp (Nat.le_zero.mp h1)
    subst this
    cases f2 <;> rfl
  | succ f ih =>
    intro s f2 h1 h2
    cases s with
    | nil => cases f2 <;> rfl
    | cons c cs =>
      cases f2 with
      | zero => simp at h2
      | succ g =>
        simp only [pyReplaceAux]
        by_cases h : pat ≠ [] ∧ pat.isPrefixOf (c :: cs)
        · rw [if_pos h, if_pos h,
            ih (cs.drop (pat.length - 1)) g
              (by rw [List.length_drop]
                  simp only [List.length_cons] at h1; omega)
              (by rw [List.length_drop]
                  simp only [List.length_cons] at h2; omega)]
        · rw [if_neg h, if_neg h,
            ih cs g (by simp only [List.length_cons] at h1; omega)
              (by simp only [List.length_cons] at h2; omega)]

/-- Unfolding equation of `pyReplace` on a non-empty string. -/
theorem pyReplace_cons (pat rep : List Char) (c : Char) (cs : List Char) :
    pyReplace pat rep (c :: cs)
      = if pat ≠ [] ∧ pat.isPrefixOf (c :: cs) then
          rep ++ pyReplace pat rep (cs.drop (pat.length - 1))
        else c :: pyReplace pat rep cs := by
  show pyReplaceAux pat rep (cs.length + 1) (c :: cs) = _
  simp only [pyReplaceAux]
  by_cases h : pat ≠ [] ∧ pat.isPrefixOf (c :: cs)
  · rw [if_pos h, if_pos h,
      pyReplaceAux_fuel pat rep cs.length (cs.drop (pat.length - 1))
        (cs.drop (pat.length - 1)).length
        (by rw [List.length_drop]; omega) le_rfl]
    rfl
  · rw [if_neg h, if_neg h]
    rfl

/-- Model of Python `sub in s` (substring containment). -/
def hasSub (pat : List Char) : List Char → Bool
  | [] => pat.isEmpty
  | c :: cs => pat.isPrefixOf (c :: cs) || hasSub pat cs

/-- Index of the first occurrence of `c` (Python `str.index`, only ever
called under a membership guard in the sources). -/
def pyIndexC (c : Char) (s : List Char) : Nat := s.findIdx (· = c)

/-- Index of the last occurrence of `c` (Python `str.rindex`, only ever
called under a membership guard in the sources). -/
def pyRIndexC (c : Char) (s : List Char) : Nat :=
  s.length - 1 - s.reverse.findIdx (· = c)

/-- Left-pad with `'0'` to length `n` (Python `str.zfill` on unsigned data). -/
def zfill (n : Nat) (s : List Char) : List Char :=
  List.replicate (n - s.length) '0' ++ s

/-- Python `sep.join(xs)`. -/
def joinSep (sep : List Char) : List (List Char) → List Char
  | [] => []
  | [x] => x
  | x :: y :: xs => x ++ sep ++ joinSep sep (y :: xs)

def natToDec (n : Nat) : List Char := Nat.toDigits 10 n

def intToDec (n : Int) : List Char :=
  if n < 0 then '-' :: natToDec n.natAbs else natToDec n.toNat

/-- Embedding of the exception combinator: a Python
`try: body except Exception as e: handler` block. -/
def pyTry {α : Type} (x : Except Err α) (h : Err → Except Err α) : Except Err α :=
  match x with
  | .ok a => .ok a
  | .error e => h e

instance {ε α : Type} [DecidableEq ε] [DecidableEq α] : DecidableEq (Except ε α) :=
  fun x y =>
    match x, y with
    | .ok a, .ok b =>
      if h : a = b then isTrue (by rw [h]) else isFalse (by simp [h])
    | .error a, .error b =>
      if h : a = b then isTrue (by rw [h]) else isFalse (by simp [h])
    | .ok _, .error _ => isFalse (by simp)
    | .error _, .ok _ => isFalse (by simp)

/-! ## Dynamic Python values

The decoded-parameter values and encode-input parameters of the source
are dynamically typed; they are embedded as the tagged variant `Val`. -/

inductive Val where
  | vInt : Int → Val
  | vBool : Bool → Val
  | vStr : List Char → Val
  | vBytes : List Nat → Val
  | vList : List Val → Val
deriving Repr

mutual

def Val.beq : Val → Val → Bool
  | .vInt a, .vInt b => a == b
  | .vBool a, .vBool b => a == b
  | .vStr a, .vStr b => a == b
  | .vBytes a, .vBytes b => a == b
  | .vList a, .vList b => Val.beqList a b
  | _, _ => false

def Val.beqList : List Val → List Val → Bool
  | [], [] => true
  | a :: as, b :: bs => Val.beq a b && Val.beqList as bs
  | _, _ => false

end

mutual

theorem Val.beq_iff : ∀ a b : Val, Val.beq a b = true ↔ a = b
  | .vInt _, .vInt _ => by simp [Val.beq]
  | .vInt _, .vBool _ => by simp [Val.beq]
  | .vInt _, .vStr _ => by simp [Val.beq]
  | .vInt _, .vBytes _ => by simp [Val.beq]
  | .vInt _, .vList _ => by simp [Val.beq]
  | .vBool _, .vInt _ => by simp [Val.beq]
  | .vBool _, .vBool _ => by simp [Val.beq]
  | .vBool _, .vStr _ => by simp [Val.beq]
  | .vBool _, .vBytes _ => by simp [Val.beq]
  | .vBool _, .vList _ => by simp [Val.beq]
  | .vStr _, .vInt _ => by simp [Val.beq]
  | .vStr _, .vBool _ => by simp [Val.beq]
  | .vStr _, .vStr _ => by simp [Val.beq]
  | .vStr _, .vBytes _ => by simp [Val.beq]
  | .vStr _, .vList _ => by simp [Val.beq]
  | .vBytes _, .vInt _ => by simp [Val.beq]
  | .vBytes _, .vBool _ => by simp [Val.beq]
  | .vBytes _, .vStr _ => by simp [Val.beq]
  | .vBytes _, .vBytes _ => by simp [Val.beq]
  | .vBytes _, .vList _ => by simp [Val.beq]
  | .vList _, .vInt _ => by simp [Val.beq]
  | .vList _, .vBool _ => by simp [Val.beq]
  | .vList _, .vStr _ => by simp [Val.beq]
  | .vList _, .vBytes _ => by simp [Val.beq]
  | .vList a, .vList b => by simp [Val.beq, Val.beqList_iff a b]

theorem Val.beqList_iff : ∀ as bs : List Val, Val.beqList as bs = true ↔ as = bs
  | [], [] => by simp [Val.beqList]
  | [], _ :: _ => by simp [Val.beqList]
  | _ :: _, [] => by simp [Val.beqList]
  | a :: as, b :: bs => by
    simp [Val.beqList, Val.beq_iff a b, Val.beqList_iff as bs]

end

instance : DecidableEq Val := fun a b => decidable_of_iff _ (Val.beq_iff a b)

/-- Python truthiness (`bool(value)`). -/
def pyTruthy : Val → Bool
  | .vInt n => n != 0
  | .vBool b => b
  | .vStr s => !s.isEmpty
  | .vBytes bs => !bs.isEmpty
  | .vList vs => !vs.isEmpty

/-- Decimal digit-string value, used by the model of `int(str)`. -/
def decVal (ds : List Char) : Option Nat :=
  if ds ≠ [] ∧ ds.all (fun c => '0' ≤ c ∧ c ≤ '9') then
    some (ds.foldl (fun a c => 10 * a + (c.toNat - 48)) 0)
  else none

/-- Model of Python `int(value)`: identity on ints, 0/1 on bools, decimal
parse of a stripped string (raising `ValueError` on a malformed literal),
`TypeError` on lists and bytes. -/
def pyInt : Val → Except Err Int
  | .vInt n => .ok n
  | .vBool b => .ok (if b then 1 else 0)
  | .vStr s =>
    match pyStrip s with
    | '-' :: ds =>
      match decVal ds with
      | some n => .ok (-(n : Int))
      | none => .error (s2l "invalid literal for int with base 10: " ++ s)
    | ds =>
      match decVal ds with
      | some n => .ok (n : Int)
      | none => .error (s2l "invalid literal for int with base 10: " ++ s)
  | _ => .error (s2l "int argument must be a string or a number")

/-! ## Hex and byte-string utilities (models of `bytes.hex`,
`bytes.fromhex` and big-endian words used by the ABI library). -/

def hexDigit (n : Nat) : Char :=
  if n < 10 then Char.ofNat (48 + n) else Char.ofNat (87 + n)

def byteToHex (b : Nat) : List Char := [hexDigit (b / 16), hexDigit (b % 16)]

/-- Model of Python `bytes.hex()`: lowercase, two characters per byte. -/
def bytesToHex (bs : List Nat) : List Char := (bs.map byteToHex).flatten

def hexDigitVal (c : Char) : Option Nat :=
  if '0' ≤ c ∧ c ≤ '9' then some (c.toNat - 48)
  else if 'a' ≤ c ∧ c ≤ 'f' then some (c.toNat - 87)
  else if 'A' ≤ c ∧ c ≤ 'F' then some (c.toNat - 55)
  else none

/-- Model of Python `bytes.fromhex`: pairs of hex digits (either case);
odd length or a non-hex character raises `ValueError`. -/
def hexToBytes : List Char → Except Err (List Nat)
  | [] => .ok []
  | [_] => .error (s2l "fromhex: odd-length string")
  | c1 :: c2 :: cs =>
    match hexDigitVal c1, hexDigitVal c2 with
    | some h, some l => do
      let rest ← hexToBytes cs
      .ok ((16 * h + l) :: rest)
    | _, _ => .error (s2l "fromhex: non-hexadecimal number found")

/-- Big-endian byte rendering of a natural number on `k` bytes. -/
def natToBE : Nat → Nat → List Nat
  | 0, _ => []
  | k + 1, n => natToBE k (n / 256) ++ [n % 256]

/-- Big-endian byte-list value. -/
def beToNat (bs : List Nat) : Nat := bs.foldl (fun a b => 256 * a + b) 0

/-! ## Model of the `eth_abi` codec on the supported static types

The supported-type set of this development is the elementary static
types `address`, `uint256`, `bool`: each occupies one 32-byte word in
the ABI head, so encoding is word concatenation.  Any other type string
is rejected with an error, standing for the remaining (unmodelled)
behaviour of the external library. -/

inductive ATy where
  | address : ATy
  | uint256 : ATy
  | bool : ATy
deriving DecidableEq, Repr

def parseATy (t : List Char) : Except Err ATy :=
  if t = s2l "address" then .ok .address
  else if t = s2l "uint256" then .ok .uint256
  else if t = s2l "bool" then .ok .bool
  else .error (s2l "unsupported or unparsable ABI type")

def abiEncodeOne : ATy → Val → Except Err (List Nat)
  | .address, .vStr s =>
    if s.take 2 = s2l "0x" ∧ s.length = 42 then
      match hexToBytes (s.drop 2) with
      | .ok bs => .ok (List.replicate 12 0 ++ bs)
      | .error e => .error e
    else .error (s2l "invalid address value")
  | .uint256, .vInt v =>
    if 0 ≤ v ∧ v < (2 : Int) ^ 256 then .ok (natToBE 32 v.toNat)
    else .error (s2l "value out of range for uint256")
  | .bool, .vBool b => .ok (natToBE 32 (if b then 1 else 0))
  | _, _ => .error (s2l "value not encodable at the declared type")

def abiDecodeOne : ATy → List Nat → Except Err Val
  | .address, w => .ok (.vStr (s2l "0x" ++ bytesToHex (w.drop 12)))
  | .uint256, w => .ok (.vInt (Int.ofNat (beToNat w)))
  | .bool, w =>
    if beToNat w = 0 then .ok (.vBool false)
    else if beToNat w = 1 then .ok (.vBool true)
    else .error (s2l "boolean value out of range")

/-- Model of `eth_abi.encode(types, values)` on the supported static
types (head-only word concatenation). -/
def abiEncode : List (List Char) → List Val → Except Err (List Nat)
  | [], [] => .ok []
  | t :: ts, v :: vs => do
    let ty ← parseATy t
    let w ← abiEncodeOne ty v
    let rest ← abiEncode ts vs
    .ok (w ++ rest)
  | _, _ => .error (s2l "number of types and number of values differ")

/-- Model of `eth_abi.decode(types, data)` on the supported static
types: one 32-byte word per type, trailing or missing data rejected. -/
def abiDecode : List (List Char) → List Nat → Except Err (List Val)
  | [], bs => if bs.isEmpty then .ok [] else .error (s2l "stray data in ABI body")
  | t :: ts, bs =>
    if bs.length < 32 then .error (s2l "insufficient data for ABI type") else do
      let ty ← parseATy t
      let v ← abiDecodeOne ty (bs.take 32)
      let rest ← abiDecode ts (bs.drop 32)
      .ok (v :: rest)

/-! ## `function_encoder.py` -/

/-- Depth update of `FunctionEncoder._extract_param_types`: `(` and `[`
increment, `)` and `]` decrement. -/
def bumpE (d : Int) (c : Char) : Int :=
  if c = '(' ∨ c = '[' then d + 1
  else if c = ')' ∨ c = ']' then d - 1
  else d

/-- Loop of `FunctionEncoder._extract_param_types` (lines 92-109 of the
source): split on depth-0 commas, push `current.strip()` only when
`current` is non-empty. -/
def splitE : List Char → Int → List Char → List (List Char) → List (List Char)
  | [], _, cur, acc => if cur ≠ [] then acc ++ [pyStrip cur] else acc
  | c :: cs, d, cur, acc =>
    if c = ',' ∧ d = 0 then
      splitE cs d [] (if cur ≠ [] then acc ++ [pyStrip cur] else acc)
    else
      splitE cs (bumpE d c) (cur ++ [c]) acc

/-- Python `s[s.index("(") + 1 : s.rindex(")")]` (the text between the
outermost parenthesis pair), as used by both splitters. -/
def sliceInterior (s : List Char) : List Char :=
  let i := pyIndexC '(' s
  let j := pyRIndexC ')' s
  (s.drop (i + 1)).take (j - (i + 1))

/-- `FunctionEncoder._extract_param_types`. -/
def extract_param_types (function_signature : List Char) : List (List Char) :=
  if ¬ function_signature.contains '(' ∨ ¬ function_signature.contains ')' then []
  else
    let params_str := sliceInterior function_signature
    if params_str = [] then [] else splitE params_str 0 [] []

/-- `FunctionEncoder._get_function_selector`, with the external keccak-256
hash abstracted as `k`.  The source removes spaces, hashes the UTF-8 text
and renders the first 4 bytes as lowercase hex. -/
def get_function_selector (k : List Char → List Nat) (function_signature : List Char) :
    List Char :=
  bytesToHex ((k (pyReplace [' '] [] function_signature)).take 4)

/-- Element type used by the array branch of the normalizer:
`param_type.replace("[]", "")`. -/
def elemTypeOf (t : List Char) : List Char := pyReplace (s2l "[]") [] t

mutual

/-- Per-value branch of `FunctionEncoder._normalize_parameters`
(the loop body, lines 121-168 of the source; the recursive array branch
calls the same normalization on each element). -/
def normalizeOne (t : List Char) (v : Val) : Except Err Val :=
  if t = s2l "address" then
    match v with
    | .vStr s =>
      let addr := pyReplace (s2l "0x") [] (pyLower s)
      let addr := if addr.length < 40 then zfill 40 addr else addr
      .ok (.vStr (s2l "0x" ++ addr))
    | _ => .ok v
  else if hasSub (s2l "bytes") t then
    match v with
    | .vStr s => do
      let bs ← hexToBytes (pyReplace (s2l "0x") [] s)
      .ok (.vBytes bs)
    | _ => .ok v
  else if hasSub (s2l "uint") t ∨ hasSub (s2l "int") t then do
    let n ← pyInt v
    .ok (.vInt n)
  else if t = s2l "bool" then .ok (.vBool (pyTruthy v))
  else if t = s2l "string" then .ok (.vStr (pyStrVal v))
  else if hasSub (s2l "[]") t then
    match v with
    | .vList vs => do
      let ws ← normalizeList (elemTypeOf t) vs
      .ok (.vList ws)
    | _ => .ok v
  else .ok v

def normalizeList (t : List Char) : List Val → Except Err (List Val)
  | [] => .ok []
  | v :: vs => do
    let w ← normalizeOne t v
    let ws ← normalizeList t vs
    .ok (w :: ws)

/-- Model of Python `str(value)` (quotes and escapes of nested reprs are
modelled without escape processing; byte strings are rendered by their
hex digits — no claim depends on that case). -/
def pyStrVal : Val → List Char
  | .vInt n => intToDec n
  | .vBool b => if b then s2l "True" else s2l "False"
  | .vStr s => s
  | .vBytes bs => s2l "bytes:" ++ bytesToHex bs
  | .vList vs => '[' :: joinSep (s2l ", ") (pyReprList vs) ++ [']']

def pyReprList : List Val → List (List Char)
  | [] => []
  | v :: vs => pyReprVal v :: pyReprList vs

/-- Model of Python `repr(value)` as used for list elements inside
`str(list)`. -/
def pyReprVal : Val → List Char
  | .vInt n => intToDec n
  | .vBool b => if b then s2l "True" else s2l "False"
  | .vStr s => Char.ofNat 39 :: s ++ [Char.ofNat 39]
  | .vBytes bs => s2l "bytes:" ++ bytesToHex bs
  | .vList vs => '[' :: joinSep (s2l ", ") (pyReprList vs) ++ [']']

end

/-- Loop of `FunctionEncoder._normalize_parameters`: `zip` truncates to
the shorter list, exactly as Python's `zip`. -/
def normalize_parameters (ts : List (List Char)) (vs : List Val) :
    Except Err (List Val) :=
  match ts, vs with
  | t :: ts, v :: vs => do
    let w ← normalizeOne t v
    let ws ← normalize_parameters ts vs
    .ok (w :: ws)
  | _, _ => .ok []

/-- Result dictionary of `FunctionEncoder.encode_function_call`:
`success` is the `encoded: True` shape with all five keys; `errOnly` is
the parameter-count-mismatch dictionary carrying only the `error` key
(source lines 38-40); `errFull` is the `encoded: False` exception-path
shape with the keys `error`, `function_signature`, `parameters`
(source lines 61-66). -/
inductive EncodeResult where
  | success (calldata function_selector function_signature : List Char)
      (parameters : List Val)
  | errOnly (error : List Char)
  | errFull (error function_signature : List Char) (parameters : List Val)
deriving DecidableEq, Repr

/-- `FunctionEncoder.encode_function_call`.  The whole body is inside
`try: ... except Exception` in the source, hence the outer `pyTry`. -/
def encode_function_call (k : List Char → List Nat)
    (function_signature : List Char) (parameters : List Val) :
    Except Err EncodeResult :=
  pyTry
    (do
      let selector := get_function_selector k function_signature
      let param_types := extract_param_types function_signature
      if parameters.length ≠ param_types.length then
        .ok (.errOnly (s2l "Parameter count mismatch: expected "
          ++ natToDec param_types.length ++ s2l ", got "
          ++ natToDec parameters.length))
      else do
        let normalized_params ← normalize_parameters param_types parameters
        let encoded_params ← abiEncode param_types normalized_params
        let calldata := selector ++ bytesToHex encoded_params
        .ok (.success (s2l "0x" ++ calldata) (s2l "0x" ++ selector)
          function_signature parameters))
    (fun e => .ok (.errFull (s2l "Encoding failed: " ++ e)
      function_signature parameters))

/-! ## `signature_lookup.py` -/

/-- A signature-directory entry (`{name, signature, params}`). -/
structure SignatureEntry where
  name : List Char
  signature : List Char
  params : List (List Char)
deriving DecidableEq, Repr

abbrev Cache := List (List Char × SignatureEntry)

def assocLookup (key : List Char) : Cache → Option SignatureEntry
  | [] => none
  | (k, e) :: rest => if k = key then some e else assocLookup key rest

/-- The built-in `COMMON_SIGNATURES` table (source lines 16-85). -/
def COMMON_SIGNATURES : Cache := [
  (s2l "0xa9059cbb",
    ⟨s2l "transfer", s2l "transfer(address,uint256)",
     [s2l "address recipient", s2l "uint256 amount"]⟩),
  (s2l "0x095ea7b3",
    ⟨s2l "approve", s2l "approve(address,uint256)",
     [s2l "address spender", s2l "uint256 amount"]⟩),
  (s2l "0x23b872dd",
    ⟨s2l "transferFrom", s2l "transferFrom(address,address,uint256)",
     [s2l "address sender", s2l "address recipient", s2l "uint256 amount"]⟩),
  (s2l "0x70a08231",
    ⟨s2l "balanceOf", s2l "balanceOf(address)", [s2l "address account"]⟩),
  (s2l "0x18160ddd",
    ⟨s2l "totalSupply", s2l "totalSupply()", []⟩),
  (s2l "0xdd62ed3e",
    ⟨s2l "allowance", s2l "allowance(address,address)",
     [s2l "address owner", s2l "address spender"]⟩),
  (s2l "0x313ce567",
    ⟨s2l "decimals", s2l "decimals()", []⟩),
  (s2l "0x06fdde03",
    ⟨s2l "name", s2l "name()", []⟩),
  (s2l "0x95d89b41",
    ⟨s2l "symbol", s2l "symbol()", []⟩),
  (s2l "0x7ff36ab5",
    ⟨s2l "swapExactETHForTokens",
     s2l "swapExactETHForTokens(uint256,address[],address,uint256)",
     [s2l "uint256 amountOutMin", s2l "address[] path", s2l "address to",
      s2l "uint256 deadline"]⟩),
  (s2l "0x38ed1739",
    ⟨s2l "swapExactTokensForTokens",
     s2l "swapExactTokensForTokens(uint256,uint256,address[],address,uint256)",
     [s2l "uint256 amountIn", s2l "uint256 amountOutMin", s2l "address[] path",
      s2l "address to", s2l "uint256 deadline"]⟩),
  (s2l "0xc04b8d59",
    ⟨s2l "exactInputSingle",
     s2l "exactInputSingle((address,address,uint24,address,uint256,uint256,uint256,uint160))",
     [s2l "tuple params"]⟩),
  (s2l "0xac9650d8",
    ⟨s2l "multicall", s2l "multicall(bytes[])", [s2l "bytes[] data"]⟩)]

/-- `SignatureLookup._extract_function_name`: the substring before the
first `(` (the whole string when there is none). -/
def extract_function_name (signature : List Char) : List Char :=
  if signature.contains '(' then signature.take (pyIndexC '(' signature)
  else signature

/-- Depth update of `SignatureLookup._parse_parameters`: only `(` and `)`
are tracked; square brackets are ignored. -/
def bumpL (d : Int) (c : Char) : Int :=
  if c = '(' then d + 1 else if c = ')' then d - 1 else d

/-- Loop of `SignatureLookup._parse_parameters` (source lines 162-179). -/
def splitL : List Char → Int → List Char → List (List Char) → List (List Char)
  | [], _, cur, acc => if cur ≠ [] then acc ++ [pyStrip cur] else acc
  | c :: cs, d, cur, acc =>
    if c = ',' ∧ d = 0 then
      splitL cs d [] (if cur ≠ [] then acc ++ [pyStrip cur] else acc)
    else
      splitL cs (bumpL d c) (cur ++ [c]) acc

/-- `SignatureLookup._parse_parameters`. -/
def parse_parameters (signature : List Char) : List (List Char) :=
  if ¬ signature.contains '(' ∨ ¬ signature.contains ')' then []
  else
    let params_str := sliceInterior signature
    if params_str = [] then [] else splitL params_str 0 [] []

/-- Selector normalization at the head of
`SignatureLookup.lookup_signature` (source lines 101-104): lower-case,
then ensure the `0x` prefix. -/
def normalizeSel (function_selector : List Char) : List Char :=
  let selector := pyLower function_selector
  if ¬ (s2l "0x").isPrefixOf selector then s2l "0x" ++ selector else selector

/-- `SignatureLookup.lookup_signature`.  The remote 4byte.directory query
is the abstract `net`; the returned triple is the result, the updated
process-local cache, and an instrumentation flag recording whether the
remote path was entered (the source performs network access exactly
there).  The source's `try` wraps the whole remote block and converts
any exception into the not-found outcome. -/
def lookup_signature (net : List Char → Except Err (Option (List Char)))
    (cache : Cache) (function_selector : List Char) :
    Except Err (Option SignatureEntry × Cache × Bool) :=
  let selector := normalizeSel function_selector
  match assocLookup selector COMMON_SIGNATURES with
  | some info => .ok (some info, cache, false)
  | none =>
    match assocLookup selector cache with
    | some info => .ok (some info, cache, false)
    | none =>
      pyTry
        (do
          match ← net selector with
          | some text_signature =>
            let signature_info : SignatureEntry :=
              ⟨extract_function_name text_signature, text_signature,
               parse_parameters text_signature⟩
            .ok (some signature_info, (selector, signature_info) :: cache, true)
          | none => .ok (none, cache, true))
        (fun _ => .ok (none, cache, true))

/-! ## `calldata_decoder.py` -/

/-- One decoded parameter (`{name, type, value}`). -/
structure DParam where
  name : List Char
  type : List Char
  value : Val
deriving DecidableEq, Repr

/-- Result dictionary of `CalldataDecoder.decode_calldata`: `errShort`
is the top-level too-short error; `notFound` is the
`decoded: False` shape with `signature: "unknown"` and a warning;
`success` is the `decoded: True` shape; `decodeFail` is the
`decoded: False` shape carrying a decode error message. -/
inductive DecodeResult where
  | errShort (error : List Char)
  | notFound (function_selector raw_params warning : List Char)
  | success (function_selector function_name signature : List Char)
      (parameters : List DParam) (human_readable : List Char)
  | decodeFail (function_selector function_name signature raw_params error : List Char)
deriving DecidableEq, Repr

mutual

/-- `CalldataDecoder._format_value` (recursive through array values).
The `uint`/`int` branch applies `int(value)`, which can raise, hence the
`Except` result; all calls are inside the decoder's `try`. -/
def format_value (param_type : List Char) (value : Val) : Except Err Val :=
  if param_type = s2l "address" then
    match value with
    | .vBytes bs => .ok (.vStr (s2l "0x" ++ bytesToHex bs))
    | _ => .ok value
  else if hasSub (s2l "bytes") param_type then
    match value with
    | .vBytes bs => .ok (.vStr (s2l "0x" ++ bytesToHex bs))
    | _ => .ok value
  else if hasSub (s2l "[]") param_type then
    match value with
    | .vList vs => do
      let ws ← format_value_list (pyReplace (s2l "[]") [] param_type) vs
      .ok (.vList ws)
    | _ => .ok value
  else if hasSub (s2l "uint") param_type ∨ hasSub (s2l "int") param_type then do
    let n ← pyInt value
    .ok (.vInt n)
  else if param_type = s2l "bool" then .ok (.vBool (pyTruthy value))
  else if param_type = s2l "string" then
    match value with
    | .vBytes bs => .ok (.vStr (bs.map Char.ofNat))
    | _ => .ok (.vStr (pyStrVal value))
  else .ok value

def format_value_list (param_type : List Char) : List Val → Except Err (List Val)
  | [] => .ok []
  | v :: vs => do
    let w ← format_value param_type v
    let ws ← format_value_list param_type vs
    .ok (w :: ws)

end

/-- The per-parameter name/type split of `CalldataDecoder._decode_parameters`
(source lines 119-131): `param.split(" ", 1)` when a name is present,
`paramN` otherwise, and the value formatted per the type. -/
def buildDParams (i : Nat) : List (List Char) → List Val → Except Err (List DParam)
  | p :: ps, v :: vs => do
    let type_part := if p.contains ' ' then p.take (pyIndexC ' ' p) else p
    let name_part := if p.contains ' ' then p.drop (pyIndexC ' ' p + 1)
      else s2l "param" ++ natToDec i
    let value ← format_value type_part v
    let rest ← buildDParams (i + 1) ps vs
    .ok (⟨name_part, type_part, value⟩ :: rest)
  | _, _ => .ok []

/-- `CalldataDecoder._decode_parameters`. -/
def decode_parameters (params_hex : List Char) (param_types : List (List Char)) :
    Except Err (List DParam) :=
  if params_hex = [] ∨ param_types = [] then .ok []
  else do
    let params_hex := if (s2l "0x").isPrefixOf params_hex then params_hex.drop 2
      else params_hex
    let params_bytes ← hexToBytes params_hex
    let types_only := param_types.map
      (fun p => if p.contains ' ' then p.take (pyIndexC ' ' p) else p)
    let decoded_values ← abiDecode types_only params_bytes
    buildDParams 0 param_types decoded_values

/-- Per-parameter piece of `CalldataDecoder._format_human_readable`
(the loop body, source lines 182-199).  The floating-point rendering
`f"{value / 10**18:.6f}"` of the wei heuristic is abstracted as the
parameter `weiFmt`. -/
def human_piece (weiFmt : Int → List Char) (p : DParam) : List Char :=
  if p.type = s2l "address" then p.name ++ '=' :: pyStrVal p.value
  else if hasSub (s2l "uint") p.type then
    match p.value with
    | .vInt n =>
      if n > 1000000000000000000 then
        p.name ++ '=' :: weiFmt n ++ s2l " (" ++ intToDec n ++ s2l " wei)"
      else p.name ++ '=' :: pyStrVal p.value
    | .vList vs => p.name ++ '=' :: pyStrVal (.vList vs)
    | v => p.name ++ '=' :: pyStrVal v
  else
    match p.value with
    | .vList vs => p.name ++ s2l "=[" ++ natToDec vs.length ++ s2l " items]"
    | v => p.name ++ '=' :: pyStrVal v

/-- `CalldataDecoder._format_human_readable`. -/
def format_human_readable (weiFmt : Int → List Char) (function_name : List Char)
    (parameters : List DParam) : List Char :=
  if parameters = [] then function_name ++ s2l "()"
  else function_name ++ '(' ::
    joinSep (s2l ", ") (parameters.map (human_piece weiFmt)) ++ [')']

/-- `CalldataDecoder.decode_calldata`.  The signature directory is the
abstract `lookup` (the caller instantiates it with
`lookup_signature` composed over a network oracle and cache); `weiFmt`
is the abstracted float rendering of the wei heuristic.  The source's
`try` wraps only the parameter-decoding block. -/
def decode_calldata (lookup : List Char → Except Err (Option SignatureEntry))
    (weiFmt : Int → List Char) (calldata : List Char) :
    Except Err DecodeResult := do
  if calldata = [] ∨ calldata.length < 10 then
    .ok (.errShort (s2l "Invalid calldata - too short"))
  else
    let calldata := if ¬ (s2l "0x").isPrefixOf calldata then s2l "0x" ++ calldata
      else calldata
    let function_selector := calldata.take 10
    let params_data := calldata.drop 10
    match ← lookup function_selector with
    | none =>
      .ok (.notFound function_selector params_data
        (s2l "Function signature not found in database"))
    | some signature_info =>
      pyTry
        (do
          let decoded_params ← decode_parameters params_data signature_info.params
          .ok (.success function_selector signature_info.name
            signature_info.signature decoded_params
            (format_human_readable weiFmt signature_info.name decoded_params)))
        (fun e => .ok (.decodeFail function_selector signature_info.name
          signature_info.signature params_data
          (s2l "Parameter decoding failed: " ++ e)))

/-! ## Shared concrete instantiations used by counterexamples and
witnesses

`k0` is a concrete stand-in for the abstract keccak parameter (the
claims settled with it do not depend on which hash is used); `wf0` is a
trivial instantiation of the abstracted wei float rendering. -/

def k0 : List Char → List Nat := fun s => [s.length % 256] ++ List.replicate 31 0

def wf0 : Int → List Char := fun _ => []

/-- Projection of the decoding-relevant part of `lookup_signature`, as
`decode_calldata` consumes it. -/
def mkLookup (net : List Char → Except Err (Option (List Char))) (cache : Cache) :
    List Char → Except Err (Option SignatureEntry) :=
  fun s => (lookup_signature net cache s).map (fun t => t.1)

/-! ## Claim C9: too-short calldata -/

/-- C9: for every input string shorter than 10 characters,
`decode_calldata` returns the top-level too-short error result.  The
statement holds for every `lookup` function — including one that always
raises — so the signature directory is provably never consulted and no
decoding work is reachable. -/
theorem C9_too_short_no_lookup
    (lookup : List Char → Except Err (Option SignatureEntry))
    (weiFmt : Int → List Char) (calldata : List Char)
    (h : calldata.length < 10) :
    decode_calldata lookup weiFmt calldata
      = .ok (.errShort (s2l "Invalid calldata - too short")) := by
  simp only [decode_calldata]
  rw [if_pos (Or.inr h)]

/-- Witness for C9 at the spec's concrete input `"0x1234"`, with a
lookup that raises if ever consulted. -/
theorem C9_witness :
    (s2l "0x1234").length < 10
    ∧ decode_calldata (fun _ => .error (s2l "consulted")) wf0 (s2l "0x1234")
      = .ok (.errShort (s2l "Invalid calldata - too short")) :=
  ⟨by decide, C9_too_short_no_lookup _ _ _ (by decide)⟩

/-! ## Claim C10: selector-only calldata decodes to an empty parameter
list -/

/-- C10: a 10-character `0x`-prefixed calldata whose selector resolves
returns the `decoded: True` success shape with an empty parameter list
and human-readable rendering `name()` — never a decode failure —
regardless of how many parameters the resolved signature declares. -/
theorem C10_empty_body_success
    (lookup : List Char → Except Err (Option SignatureEntry))
    (weiFmt : Int → List Char) (calldata : List Char) (entry : SignatureEntry)
    (hpre : (s2l "0x").isPrefixOf calldata = true)
    (hlen : calldata.length = 10)
    (hlook : lookup calldata = .ok (some entry)) :
    decode_calldata lookup weiFmt calldata
      = .ok (.success calldata entry.name entry.signature []
          (entry.name ++ s2l "()")) := by
  simp only [decode_calldata]
  rw [if_neg]
  · simp only [hpre, not_true, if_neg, ite_false, if_false]
    rw [List.take_of_length_le (le_of_eq hlen)]
    rw [List.drop_eq_nil_of_le (le_of_eq hlen)]
    rw [hlook]
    simp only [bind, Except.bind, pyTry, decode_parameters, if_pos (Or.inl rfl),
      format_human_readable, if_pos rfl]
    simp [format_human_readable]
  · intro hcon
    rcases hcon with h1 | h2
    · rw [h1] at hlen; simp at hlen
    · omega

/-- Witness for C10 at the concrete selector-only input `"0xa9059cbb"`
resolved to the built-in `transfer` entry (which declares 2 parameters). -/
theorem C10_witness :
    decode_calldata
      (fun s => if s = s2l "0xa9059cbb" then
        .ok (some ⟨s2l "transfer", s2l "transfer(address,uint256)",
          [s2l "address recipient", s2l "uint256 amount"]⟩)
        else .ok none)
      wf0 (s2l "0xa9059cbb")
      = .ok (.success (s2l "0xa9059cbb") (s2l "transfer")
          (s2l "transfer(address,uint256)") [] (s2l "transfer()")) :=
  C10_empty_body_success _ _ _
    ⟨s2l "transfer", s2l "transfer(address,uint256)",
      [s2l "address recipient", s2l "uint256 amount"]⟩
    (by decide) (by decide) (by decide)

/-! ## Claim C8: built-in table hits -/

/-- C8: whenever the normalized selector (lower-cased, `0x`-ensured —
hence regardless of input letter case or presence of the prefix) is a
key of the built-in `COMMON_SIGNATURES` table, `lookup_signature`
returns exactly the fixed table entry, leaves the process-local cache
unchanged, and never enters the remote path (the network-access flag is
`false`, for every network oracle including a raising one). -/
theorem C8_builtin_table_hit
    (net : List Char → Except Err (Option (List Char)))
    (cache : Cache) (function_selector : List Char) (entry : SignatureEntry)
    (h : assocLookup (normalizeSel function_selector) COMMON_SIGNATURES
      = some entry) :
    lookup_signature net cache function_selector
      = .ok (some entry, cache, false) := by
  simp only [lookup_signature]
  rw [h]

/-- Witness for C8 at the upper-case, prefix-less selector `"A9059CBB"`,
with a network oracle that raises if ever consulted and a non-trivial
cache that must come back unchanged. -/
theorem C8_witness :
    assocLookup (normalizeSel (s2l "A9059CBB")) COMMON_SIGNATURES
      = some ⟨s2l "transfer", s2l "transfer(address,uint256)",
          [s2l "address recipient", s2l "uint256 amount"]⟩
    ∧ lookup_signature (fun _ => .error (s2l "network"))
        [(s2l "0xdeadbeef", ⟨s2l "x", s2l "x()", []⟩)] (s2l "A9059CBB")
      = .ok (some ⟨s2l "transfer", s2l "transfer(address,uint256)",
          [s2l "address recipient", s2l "uint256 amount"]⟩,
          [(s2l "0xdeadbeef", ⟨s2l "x", s2l "x()", []⟩)], false) :=
  ⟨by decide, C8_builtin_table_hit _ _ _ _ (by decide)⟩

/-! ## Claim C2: no internal exception escapes a public operation -/

theorem pyTry_isOk {α : Type} (x : Except Err α) (h : Err → Except Err α)
    (hh : ∀ e, ∃ a, h e = .ok a) : ∃ a, pyTry x h = .ok a := by
  cases x with
  | ok a => exact ⟨a, rfl⟩
  | error e => exact (hh e).imp (fun a ha => by simpa [pyTry] using ha)

theorem lookup_signature_isOk
    (net : List Char → Except Err (Option (List Char)))
    (cache : Cache) (function_selector : List Char) :
    ∃ r, lookup_signature net cache function_selector = .ok r := by
  simp only [lookup_signature]
  cases assocLookup (normalizeSel function_selector) COMMON_SIGNATURES with
  | some info => exact ⟨_, rfl⟩
  | none =>
    cases assocLookup (normalizeSel function_selector) cache with
    | some info => exact ⟨_, rfl⟩
    | none =>
      apply pyTry_isOk
      intro e; exact ⟨_, rfl⟩

theorem encode_function_call_isOk (k : List Char → List Nat)
    (function_signature : List Char) (parameters : List Val) :
    ∃ r, encode_function_call k function_signature parameters = .ok r := by
  apply pyTry_isOk
  intro e; exact ⟨_, rfl⟩

theorem decode_calldata_isOk
    (lookup : List Char → Except Err (Option SignatureEntry))
    (hlookup : ∀ s, ∃ v, lookup s = .ok v)
    (weiFmt : Int → List Char) (calldata : List Char) :
    ∃ r, decode_calldata lookup weiFmt calldata = .ok r := by
  simp only [decode_calldata]
  by_cases hshort : calldata = [] ∨ calldata.length < 10
  · rw [if_pos hshort]; exact ⟨_, rfl⟩
  · rw [if_neg hshort]
    obtain ⟨v, hv⟩ := hlookup
      ((if ¬ (s2l "0x").isPrefixOf calldata then s2l "0x" ++ calldata
        else calldata).take 10)
    rw [hv]
    simp only [bind, Except.bind]
    cases v with
    | none => exact ⟨_, rfl⟩
    | some info =>
      apply pyTry_isOk
      intro e; exact ⟨_, rfl⟩

/-- C2: none of the three public operations lets an internal exception
escape: for every input, network-oracle behaviour, cache state and hash
function, `lookup_signature`, `decode_calldata` (running on the real
directory) and `encode_function_call` all return `Except.ok` of a
structured result — never `Except.error`, the embedding of an uncaught
exception. -/
theorem C2_no_exception_escapes
    (net : List Char → Except Err (Option (List Char)))
    (cache : Cache) (sel calldata : List Char) (weiFmt : Int → List Char)
    (k : List Char → List Nat) (sig : List Char) (params : List Val) :
    (∃ r, lookup_signature net cache sel = .ok r)
    ∧ (∃ r, decode_calldata (mkLookup net cache) weiFmt calldata = .ok r)
    ∧ (∃ r, encode_function_call k sig params = .ok r) := by
  refine ⟨lookup_signature_isOk net cache sel, ?_,
    encode_function_call_isOk k sig params⟩
  apply decode_calldata_isOk
  intro s
  obtain ⟨r, hr⟩ := lookup_signature_isOk net cache s
  exact ⟨r.1, by simp [mkLookup, hr, Except.map]⟩

/-! ## Claim C5: shape of encode error results -/

/-- Discriminator: is an encode result the success shape? -/
def isEncSuccess : EncodeResult → Bool
  | .success _ _ _ _ => true
  | _ => false

/-- Discriminator: is an encode result the four-key error shape
`{error, function_signature, parameters, encoded: False}`? -/
def isErrFull : EncodeResult → Bool
  | .errFull _ _ _ => true
  | _ => false

/-- C5 counterexample: on a parameter-count mismatch the source (lines
38-40) returns a dictionary carrying only the `error` key; it is not the
four-key `{error, function_signature, parameters, encoded: False}`
shape the claim asserts for every encode error result. -/
theorem C5_counterexample :
    encode_function_call k0 (s2l "transfer(address,uint256)") [.vInt 5]
      = .ok (.errOnly (s2l "Parameter count mismatch: expected 2, got 1"))
    ∧ isErrFull (.errOnly (s2l "Parameter count mismatch: expected 2, got 1"))
      = false := by
  constructor
  · decide
  · rfl

/-- C5 amended: a parameter-count mismatch yields a returned (not
thrown) error result carrying only the `error` key with the exact
mismatch message; every other outcome of `encode_function_call` is
either the success shape or the four-key
`{error, function_signature, parameters, encoded: False}` shape. -/
theorem C5_amended (k : List Char → List Nat) (sig : List Char)
    (params : List Val) :
    (params.length ≠ (extract_param_types sig).length →
      encode_function_call k sig params
        = .ok (.errOnly (s2l "Parameter count mismatch: expected "
            ++ natToDec (extract_param_types sig).length ++ s2l ", got "
            ++ natToDec params.length)))
    ∧ (params.length = (extract_param_types sig).length →
      ∀ r, encode_function_call k sig params = .ok r →
        isEncSuccess r = true ∨ isErrFull r = true) := by
  constructor
  · intro h
    simp only [encode_function_call, pyTry, if_pos h]
  · intro h r hr
    simp only [encode_function_call, if_neg (by omega : ¬ params.length
      ≠ (extract_param_types sig).length)] at hr
    cases hn : normalize_parameters (extract_param_types sig) params with
    | error e =>
      simp [bind, Except.bind, hn, pyTry] at hr
      subst hr; right; rfl
    | ok normed =>
      cases he : abiEncode (extract_param_types sig) normed with
      | error e =>
        simp [bind, Except.bind, hn, he, pyTry] at hr
        subst hr; right; rfl
      | ok enc =>
        simp [bind, Except.bind, hn, he, pyTry] at hr
        subst hr; left; rfl

/-- Witness for C5 at a one-short parameter list for a two-parameter
signature. -/
theorem C5_witness :
    encode_function_call k0 (s2l "transfer(address,uint256)") [.vInt 7]
      = .ok (.errOnly (s2l "Parameter count mismatch: expected "
          ++ natToDec (extract_param_types (s2l "transfer(address,uint256)")).length
          ++ s2l ", got " ++ natToDec [Val.vInt 7].length)) :=
  (C5_amended k0 (s2l "transfer(address,uint256)") [.vInt 7]).1 (by decide)

/-! ## Claim C7: human-readable rendering of list-valued parameters -/

/-- C7 counterexample: a `uint256[]`-typed parameter with list value
`[1, 2]` is rendered by enumerating the list (`path=[1, 2]`), because
the `"uint" in type` branch is tested before the list branch; the claim
mandates the summary `path=[2 items]` for every array-typed parameter
including uint arrays. -/
theorem C7_counterexample :
    format_human_readable wf0 (s2l "swap")
        [⟨s2l "path", s2l "uint256[]", .vList [.vInt 1, .vInt 2]⟩]
      = s2l "swap(path=[1, 2])"
    ∧ format_human_readable wf0 (s2l "swap")
        [⟨s2l "path", s2l "uint256[]", .vList [.vInt 1, .vInt 2]⟩]
      ≠ s2l "swap(path=[2 items])" := by
  constructor
  · decide
  · decide

/-- C7 amended: the rendering is `name(piece, ..., piece)` over the
per-parameter pieces, and every parameter whose decoded value is a list
is rendered as the summary `name=[<count> items]` — except parameters
of declared type exactly `address` and parameters whose declared type
contains `uint` (uint arrays), which fall into earlier branches and
render `name=str(value)` instead. -/
theorem C7_amended (weiFmt : Int → List Char) (function_name : List Char)
    (parameters : List DParam) :
    (parameters ≠ [] →
      format_human_readable weiFmt function_name parameters
        = function_name ++ '(' ::
          joinSep (s2l ", ") (parameters.map (human_piece weiFmt)) ++ [')'])
    ∧ (∀ p ∈ parameters, ∀ vs, p.value = .vList vs →
        p.type ≠ s2l "address" → hasSub (s2l "uint") p.type = false →
        human_piece weiFmt p
          = p.name ++ s2l "=[" ++ natToDec vs.length ++ s2l " items]") := by
  constructor
  · intro h
    simp only [format_human_readable, if_neg h]
  · intro p _ vs hv ha hu
    simp only [human_piece, if_neg ha, hu]
    simp [hv]

/-- Witness for C7 at an `address[]`-typed parameter with a one-element
list value. -/
theorem C7_witness :
    format_human_readable wf0 (s2l "f")
        [⟨s2l "path", s2l "address[]", .vList [.vInt 1]⟩]
      = s2l "f" ++ '(' ::
        joinSep (s2l ", ")
          ([(⟨s2l "path", s2l "address[]", .vList [.vInt 1]⟩ : DParam)].map
            (human_piece wf0)) ++ [')']
    ∧ human_piece wf0 ⟨s2l "path", s2l "address[]", .vList [.vInt 1]⟩
      = s2l "path" ++ s2l "=[" ++ natToDec 1 ++ s2l " items]" :=
  ⟨(C7_amended wf0 (s2l "f") _).1 (by decide),
   (C7_amended wf0 (s2l "f")
      [⟨s2l "path", s2l "address[]", .vList [.vInt 1]⟩]).2
     ⟨s2l "path", s2l "address[]", .vList [.vInt 1]⟩ (by simp)
     [.vInt 1] rfl (by decide) (by decide)⟩

/-! ## Claim C3: the depth-tracking splitter -/

/-- Claim-side segmentation: the interior cut at depth-0 commas with the
claim's depth rule (`(`/`[` increment, `)`/`]` decrement), keeping every
segment — the standard meaning of "split on commas". -/
def c3Segs : List Char → Int → List Char → List (List Char)
  | [], _, cur => [cur]
  | c :: cs, d, cur =>
    if c = ',' ∧ d = 0 then cur :: c3Segs cs d []
    else c3Segs cs (bumpE d c) (cur ++ [c])

/-- Claim C3 read literally: split the text between the outermost
parenthesis pair on depth-0 commas and trim each token; empty list when
the parentheses are missing. -/
def c3SplitLiteral (sig : List Char) : List (List Char) :=
  if ¬ sig.contains '(' ∨ ¬ sig.contains ')' then []
  else (c3Segs (sliceInterior sig) 0 []).map pyStrip

/-- Claim C3 as amended: identical, except that segments that are empty
before trimming are dropped (which also makes an empty interior yield
the empty list). -/
def c3SplitAmended (sig : List Char) : List (List Char) :=
  if ¬ sig.contains '(' ∨ ¬ sig.contains ')' then []
  else ((c3Segs (sliceInterior sig) 0 []).filter (fun t => t ≠ [])).map pyStrip

theorem splitE_eq_segs : ∀ (cs : List Char) (d : Int) (cur : List Char)
    (acc : List (List Char)),
    splitE cs d cur acc
      = acc ++ ((c3Segs cs d cur).filter (fun t => t ≠ [])).map pyStrip := by
  intro cs
  induction cs with
  | nil =>
    intro d cur acc
    simp only [splitE, c3Segs]
    by_cases h : cur = []
    · subst h; simp
    · simp [h]
  | cons c cs ih =>
    intro d cur acc
    simp only [splitE, c3Segs]
    by_cases hc : c = ',' ∧ d = 0
    · rw [if_pos hc, if_pos hc, ih]
      by_cases h : cur = []
      · subst h; simp
      · simp [h]
    · rw [if_neg hc, if_neg hc, ih]

/-- C3 counterexample: on `"f(a,,b)"` the source's splitter drops the
segment that is empty before trimming (the `if current:` guard, source
line 98), producing 2 tokens where the claim's literal split-and-trim
produces 3. -/
theorem C3_counterexample :
    extract_param_types (s2l "f(a,,b)") = [s2l "a", s2l "b"]
    ∧ c3SplitLiteral (s2l "f(a,,b)") = [s2l "a", [], s2l "b"]
    ∧ extract_param_types (s2l "f(a,,b)") ≠ c3SplitLiteral (s2l "f(a,,b)") :=
  ⟨by decide, by decide, by decide⟩

/-- C3 amended: `extract_param_types` splits the text between the
outermost parenthesis pair on commas at nesting depth 0 (depth
incremented on `(` or `[`, decremented on `)` or `]`), drops segments
that are empty before trimming, trims whitespace per token, preserves
order, and returns the empty list when the signature has no
parentheses; in particular the spec's example yields exactly its 3
tokens. -/
theorem C3_amended :
    (∀ s, extract_param_types s = c3SplitAmended s)
    ∧ extract_param_types (s2l "f(uint256,address[],(bool,uint8))")
      = [s2l "uint256", s2l "address[]", s2l "(bool,uint8)"] := by
  constructor
  · intro s
    simp only [extract_param_types, c3SplitAmended]
    by_cases h : ¬ s.contains '(' ∨ ¬ s.contains ')'
    · rw [if_pos h, if_pos h]
    · rw [if_neg h, if_neg h]
      by_cases hi : sliceInterior s = []
      · rw [if_pos hi, hi]; simp [c3Segs]
      · rw [if_neg hi, splitE_eq_segs]; simp
  · decide

/-! ## Claim C4: the two splitters -/

/-- Bracket bookkeeping for the amended C4: scanning the string with a
running square-bracket balance (starting from `bb`), every comma must
sit at bracket balance zero. -/
def commasOK : List Char → Int → Bool
  | [], _ => true
  | c :: cs, bb =>
    (if c = ',' then bb == 0 else true)
    && commasOK cs (if c = '[' then bb + 1 else if c = ']' then bb - 1 else bb)

theorem bumpE_eval (d : Int) (c : Char) :
    bumpE d c
      = d + (if c = '(' ∨ c = '[' then 1 else if c = ')' ∨ c = ']' then -1 else 0) := by
  simp only [bumpE]
  split_ifs <;> ring

theorem bumpL_eval (d : Int) (c : Char) :
    bumpL d c = d + (if c = '(' then 1 else if c = ')' then -1 else 0) := by
  simp only [bumpL]
  split_ifs <;> ring

theorem bump_shift (dL bb : Int) (c : Char) :
    bumpE (dL + bb) c
      = bumpL dL c + (if c = '[' then bb + 1 else if c = ']' then bb - 1 else bb) := by
  rw [bumpE_eval, bumpL_eval]
  by_cases h1 : c = '('
  · subst h1
    rw [if_pos (by decide), if_pos (by decide), if_neg (by decide),
      if_neg (by decide)]
    ring
  · by_cases h2 : c = ')'
    · subst h2
      rw [if_neg (by decide), if_pos (by decide), if_neg (by decide),
        if_pos (by decide), if_neg (by decide), if_neg (by decide)]
      ring
    · by_cases h3 : c = '['
      · subst h3
        rw [if_pos (by decide), if_neg (by decide), if_neg (by decide),
          if_pos (by decide)]
        ring
      · by_cases h4 : c = ']'
        · subst h4
          rw [if_neg (by decide), if_pos (by decide), if_neg (by decide),
            if_neg (by decide), if_neg (by decide), if_pos (by decide)]
          ring
        · rw [if_neg (fun h => h.elim h1 h3), if_neg (fun h => h.elim h2 h4),
            if_neg h1, if_neg h2, if_neg h3, if_neg h4]
          ring

theorem splitL_eq_splitE : ∀ (cs : List Char) (dL bb : Int) (cur : List Char)
    (acc : List (List Char)), commasOK cs bb = true →
    splitL cs dL cur acc = splitE cs (dL + bb) cur acc := by
  intro cs
  induction cs with
  | nil => intro dL bb cur acc _; rfl
  | cons c cs ih =>
    intro dL bb cur acc h
    simp only [commasOK, Bool.and_eq_true] at h
    obtain ⟨hcomma, hrest⟩ := h
    simp only [splitL, splitE]
    by_cases hc : c = ','
    · subst hc
      rw [if_pos rfl] at hcomma
      have hbb : bb = 0 := by simpa using hcomma
      subst hbb
      have hrest2 : commasOK cs 0 = true := by
        rw [if_neg (by decide), if_neg (by decide)] at hrest
        exact hrest
      by_cases hd : dL = 0
      · subst hd
        rw [if_pos (show (',' : Char) = ',' ∧ (0 : Int) = 0 from ⟨rfl, rfl⟩),
          if_pos (show (',' : Char) = ',' ∧ (0 : Int) + 0 = 0 from ⟨rfl, by norm_num⟩)]
        exact ih 0 0 [] _ hrest2
      · rw [if_neg (by simp [hd]), if_neg (by simp [hd])]
        have hb : bumpE (dL + 0) ',' = bumpL dL ',' + 0 := by
          rw [bump_shift]
          rw [if_neg (by decide), if_neg (by decide)]
        rw [hb]
        exact ih (bumpL dL ',') 0 (cur ++ [',']) acc hrest2
    · rw [if_neg (fun hh => hc hh.1), if_neg (fun hh => hc hh.1)]
      rw [bump_shift dL bb c]
      exact ih (bumpL dL c) _ (cur ++ [c]) acc hrest

/-- C4 counterexample: `_parse_parameters` tracks only parentheses, so
on `"f(a[1,2])"` it splits at the comma inside the square brackets,
while `_extract_param_types` (which also tracks brackets) does not: the
two implementations are not extensionally equal. -/
theorem C4_counterexample :
    extract_param_types (s2l "f(a[1,2])") = [s2l "a[1,2]"]
    ∧ parse_parameters (s2l "f(a[1,2])") = [s2l "a[1", s2l "2]"]
    ∧ parse_parameters (s2l "f(a[1,2])") ≠ extract_param_types (s2l "f(a[1,2])") :=
  ⟨by decide, by decide, by decide⟩

/-- C4 amended: `_parse_parameters` computes the same token list as
`_extract_param_types` on every signature whose parameter region has
every comma at square-bracket balance zero (in particular on every
well-formed ABI signature, where commas never occur inside `[...]`);
the two differ in general because `_parse_parameters` ignores square
brackets when tracking depth. -/
theorem C4_amended (s : List Char)
    (h : commasOK (sliceInterior s) 0 = true) :
    parse_parameters s = extract_param_types s := by
  simp only [parse_parameters, extract_param_types]
  by_cases hg : ¬ s.contains '(' ∨ ¬ s.contains ')'
  · rw [if_pos hg, if_pos hg]
  · rw [if_neg hg, if_neg hg]
    by_cases hi : sliceInterior s = []
    · rw [if_pos hi, if_pos hi]
    · rw [if_neg hi, if_neg hi]
      have := splitL_eq_splitE (sliceInterior s) 0 0 [] [] h
      simpa using this

/-- Witness for C4 on a signature with an array type (bracket balance
zero at each comma). -/
theorem C4_witness :
    commasOK (sliceInterior (s2l "swapExactETHForTokens(uint256,address[],address,uint256)")) 0 = true
    ∧ parse_parameters (s2l "swapExactETHForTokens(uint256,address[],address,uint256)")
      = extract_param_types (s2l "swapExactETHForTokens(uint256,address[],address,uint256)") :=
  ⟨by decide, C4_amended _ (by decide)⟩

/-! ## Claim C6: selector computation -/

/-- Claim-side whitespace stripping: remove all whitespace characters
(the claim says "strips all whitespace"). -/
def stripAllWs (s : List Char) : List Char := s.filter (fun c => !isPyWs c)

/-- C6 counterexample: the source removes only space characters
(`replace(" ", "")`, source line 71), so a signature containing a tab is
hashed with the tab retained, not with all whitespace stripped as the
claim states (exhibited with a concrete hash function; the inequality
is independent of which hash is used, since the hashed texts already
differ). -/
theorem C6_counterexample :
    pyReplace [' '] [] (s2l "f()\t") ≠ stripAllWs (s2l "f()\t")
    ∧ get_function_selector k0 (s2l "f()\t")
      ≠ bytesToHex ((k0 (stripAllWs (s2l "f()\t"))).take 4) :=
  ⟨by decide, by decide⟩

def isLowerHex (c : Char) : Bool := (s2l "0123456789abcdef").contains c

theorem hexDigit_isLowerHex {n : Nat} (h : n < 16) : isLowerHex (hexDigit n) = true := by
  interval_cases n <;> decide

theorem bytesToHex_length (bs : List Nat) :
    (bytesToHex bs).length = 2 * bs.length := by
  induction bs with
  | nil => rfl
  | cons b bs ih =>
    simp only [bytesToHex, List.map_cons, List.flatten_cons, List.length_append,
      byteToHex, List.length_cons, List.length_nil, List.length_cons] at *
    omega

theorem bytesToHex_cons (b : Nat) (bs : List Nat) :
    bytesToHex (b :: bs) = byteToHex b ++ bytesToHex bs := by
  simp [bytesToHex]

theorem bytesToHex_mem : ∀ (bs : List Nat), (∀ b ∈ bs, b < 256) →
    ∀ c ∈ bytesToHex bs, isLowerHex c = true := by
  intro bs
  induction bs with
  | nil => intro _ c hc; simp [bytesToHex] at hc
  | cons b bs ih =>
    intro hb c hc
    have hb0 : b < 256 := hb b (by simp)
    rw [bytesToHex_cons] at hc
    rcases List.mem_append.mp hc with h1 | h2
    · simp only [byteToHex, List.mem_cons, List.not_mem_nil, or_false] at h1
      rcases h1 with rfl | rfl
      · exact hexDigit_isLowerHex (by omega)
      · exact hexDigit_isLowerHex (Nat.mod_lt _ (by norm_num))
    · exact ih (fun x hx => hb x (by simp [hx])) c h2

theorem pyReplace_single (c : Char) (s : List Char) :
    pyReplace [c] [] s = s.filter (fun x => x ≠ c) := by
  induction s with
  | nil => rfl
  | cons x xs ih =>
    rw [pyReplace_cons]
    by_cases h : x = c
    · subst h
      rw [if_pos ⟨by simp, by simp [List.isPrefixOf]⟩]
      simpa using ih
    · rw [if_neg (fun hh => by
        have hp := hh.2
        simp only [List.isPrefixOf, Bool.and_eq_true, beq_iff_eq] at hp
        exact h hp.1.symm)]
      simp [h, ih]

/-- C6 amended: the selector computation removes only space characters
(U+0020) from the signature — other whitespace such as tabs is retained
— hashes the resulting text, and renders the first 4 bytes of the hash
as exactly 8 lowercase hex characters (in particular carrying no `0x`
prefix); consequently any two signatures differing only in spaces (not
in arbitrary whitespace) yield the same selector.  Stated for every
hash `k` producing 32 bytes, as keccak-256 does. -/
theorem C6_amended (k : List Char → List Nat)
    (hk : ∀ s, (k s).length = 32 ∧ ∀ b ∈ k s, b < 256) :
    (∀ sig, get_function_selector k sig
      = bytesToHex ((k (sig.filter (fun c => c ≠ ' '))).take 4))
    ∧ (∀ s1 s2, s1.filter (fun c => c ≠ ' ') = s2.filter (fun c => c ≠ ' ') →
        get_function_selector k s1 = get_function_selector k s2)
    ∧ (∀ sig, (get_function_selector k sig).length = 8
        ∧ ∀ c ∈ get_function_selector k sig, isLowerHex c = true) := by
  have hmain : ∀ sig, get_function_selector k sig
      = bytesToHex ((k (sig.filter (fun c => c ≠ ' '))).take 4) := by
    intro sig
    simp only [get_function_selector, pyReplace_single]
  refine ⟨hmain, ?_, ?_⟩
  · intro s1 s2 h
    rw [hmain, hmain, h]
  · intro sig
    constructor
    · simp only [get_function_selector, bytesToHex_length, List.length_take,
        (hk _).1]
      omega
    · intro c hc
      simp only [get_function_selector] at hc
      refine bytesToHex_mem _ ?_ c hc
      intro b hb
      exact (hk _).2 b (List.mem_of_mem_take hb)

/-- Witness for C6 with a concrete 32-byte hash and a signature
containing spaces. -/
theorem C6_witness :
    get_function_selector (fun _ => List.range 32) (s2l "f(uint256, bool)")
      = bytesToHex (((fun (_ : List Char) => List.range 32)
          ((s2l "f(uint256, bool)").filter (fun c => c ≠ ' '))).take 4)
    ∧ (get_function_selector (fun _ => List.range 32) (s2l "f(uint256, bool)")).length = 8 :=
  ⟨(C6_amended (fun _ => List.range 32)
      (fun s => ⟨by simp, fun b hb => by
        have := List.mem_range.mp hb; omega⟩)).1 (s2l "f(uint256, bool)"),
   ((C6_amended (fun _ => List.range 32)
      (fun s => ⟨by simp, fun b hb => by
        have := List.mem_range.mp hb; omega⟩)).2.2 (s2l "f(uint256, bool)")).1⟩

/-! ## Claim C1: encode/decode round trip

The supported-type set of the claim is the elementary static subset
`address`, `uint256`, `bool` handled by the ABI model above; the
claim-side grammar `SType` ranges over exactly these. -/

inductive SType where
  | address : SType
  | uint256 : SType
  | sbool : SType
deriving DecidableEq, Repr

def SType.render : SType → List Char
  | .address => s2l "address"
  | .uint256 => s2l "uint256"
  | .sbool => s2l "bool"

def SType.aty : SType → ATy
  | .address => .address
  | .uint256 => .uint256
  | .sbool => .bool

/-- Hex digit of either case. -/
def isHexAny (c : Char) : Bool := (s2l "0123456789abcdefABCDEF").contains c

/-- The digit part of an address value: the text after an optional
`0x`/`0X` prefix. -/
def addrBody (s : List Char) : List Char :=
  if (s2l "0x").isPrefixOf s ∨ (s2l "0X").isPrefixOf s then s.drop 2 else s

/-- Claim-side well-typedness of an encode-input value at a supported
type: a hex address string of at most 40 digits with optional prefix,
an in-range unsigned 256-bit integer, a boolean. -/
def wtVal : SType → Val → Bool
  | .address, .vStr s =>
    (addrBody s).all isHexAny && decide ((addrBody s).length ≤ 40)
  | .uint256, .vInt v => decide (0 ≤ v ∧ v < (2 : Int) ^ 256)
  | .sbool, .vBool _ => true
  | _, _ => false

/-- Claim-side normalization (the claim's "type-appropriate
normalization"): addresses are lower-cased, zero-padded to 40 hex
digits and `0x`-prefixed; other supported values are unchanged. -/
def c1Norm : SType → Val → Val
  | .address, .vStr s => .vStr (s2l "0x" ++ zfill 40 (pyLower (addrBody s)))
  | _, v => v

/-- A function signature built from a name and supported parameter
types. -/
def mkSig (name : List Char) (ts : List SType) : List Char :=
  name ++ '(' :: joinSep [','] (ts.map SType.render) ++ [')']

/-- C1 counterexample: the claim quantifies over every value list whose
length matches the declared types, but a non-numeric string for a
`uint256` parameter makes the encoder's `int(value)` raise, and
`encode_function_call` returns the error shape, not success: the length
condition alone does not make the encode succeed. -/
theorem C1_counterexample :
    encode_function_call k0 (s2l "f(uint256)") [.vStr (s2l "x")]
      = .ok (.errFull
          (s2l "Encoding failed: invalid literal for int with base 10: x")
          (s2l "f(uint256)") [.vStr (s2l "x")])
    ∧ isEncSuccess (.errFull
          (s2l "Encoding failed: invalid literal for int with base 10: x")
          (s2l "f(uint256)") [.vStr (s2l "x")]) = false :=
  ⟨by decide, rfl⟩

/-! ### Hex and big-endian word lemmas for the round trip -/

theorem hexDigitVal_hexDigit {n : Nat} (h : n < 16) :
    hexDigitVal (hexDigit n) = some n := by
  interval_cases n <;> decide

theorem hexDigit_ne_x {n : Nat} (h : n < 16) : hexDigit n ≠ 'x' := by
  interval_cases n <;> decide

theorem hexToBytes_bytesToHex : ∀ (bs : List Nat), (∀ b ∈ bs, b < 256) →
    hexToBytes (bytesToHex bs) = .ok bs := by
  intro bs
  induction bs with
  | nil => intro _; rfl
  | cons b bs ih =>
    intro hb
    have hb0 : b < 256 := hb b (by simp)
    rw [bytesToHex_cons]
    show hexToBytes (hexDigit (b / 16) :: hexDigit (b % 16) :: bytesToHex bs) = _
    rw [hexToBytes, hexDigitVal_hexDigit (by omega),
      hexDigitVal_hexDigit (Nat.mod_lt _ (by norm_num))]
    rw [ih (fun x hx => hb x (by simp [hx]))]
    simp only [bind, Except.bind]
    have hbb : 16 * (b / 16) + b % 16 = b := by omega
    rw [hbb]

theorem isLowerHex_spec {c : Char} (h : isLowerHex c = true) :
    ∃ n, hexDigitVal c = some n ∧ n < 16 ∧ hexDigit n = c := by
  rw [isLowerHex] at h
  have hm : c ∈ s2l "0123456789abcdef" := List.elem_iff.mp h
  simp only [s2l, List.mem_cons, List.not_mem_nil, or_false] at hm
  rcases hm with rfl | rfl | rfl | rfl | rfl | rfl | rfl | rfl | rfl | rfl | rfl
    | rfl | rfl | rfl | rfl | rfl
  all_goals exact ⟨_, rfl, by decide, by decide⟩

theorem hexToBytes_lower : ∀ (u : List Char), (∀ c ∈ u, isLowerHex c = true) →
    u.length % 2 = 0 →
    ∃ bs, hexToBytes u = .ok bs ∧ bytesToHex bs = u
      ∧ bs.length = u.length / 2 ∧ (∀ b ∈ bs, b < 256)
  | [] => fun _ _ => ⟨[], rfl, rfl, rfl, by simp⟩
  | [c] => fun _ hlen => by simp at hlen
  | c1 :: c2 :: rest => fun hc hlen => by
    obtain ⟨n1, hv1, hlt1, hd1⟩ := isLowerHex_spec (hc c1 (by simp))
    obtain ⟨n2, hv2, hlt2, hd2⟩ := isLowerHex_spec (hc c2 (by simp))
    obtain ⟨bs, hok, hhex, hlen2, hbnd⟩ := hexToBytes_lower rest
      (fun c hcm => hc c (by simp [hcm]))
      (by simp only [List.length_cons] at hlen ⊢; omega)
    refine ⟨(16 * n1 + n2) :: bs, ?_, ?_, ?_, ?_⟩
    · rw [hexToBytes, hv1, hv2, hok]
      rfl
    · rw [bytesToHex_cons, hhex]
      have e1 : (16 * n1 + n2) / 16 = n1 := by omega
      have e2 : (16 * n1 + n2) % 16 = n2 := by omega
      simp only [byteToHex, e1, e2, hd1, hd2]
      rfl
    · simp only [List.length_cons] at *; omega
    · intro b hbm
      rcases List.mem_cons.mp hbm with rfl | hbm
      · omega
      · exact hbnd b hbm

theorem natToBE_length : ∀ (k n : Nat), (natToBE k n).length = k := by
  intro k
  induction k with
  | zero => intro n; rfl
  | succ k ih => intro n; simp [natToBE, ih]

theorem natToBE_lt : ∀ (k n : Nat), ∀ b ∈ natToBE k n, b < 256 := by
  intro k
  induction k with
  | zero =>
    intro n b hb
    rw [show natToBE 0 n = [] from rfl] at hb
    exact absurd hb (List.not_mem_nil b)
  | succ k ih =>
    intro n b hb
    simp only [natToBE, List.mem_append, List.mem_singleton] at hb
    rcases hb with hb | hb
    · exact ih _ b hb
    · subst hb; exact Nat.mod_lt _ (by norm_num)

theorem beToNat_append_one (xs : List Nat) (b : Nat) :
    beToNat (xs ++ [b]) = 256 * beToNat xs + b := by
  simp [beToNat, List.foldl_append]

theorem mod_mul_helper (q r m : Nat) (hr : r < 256) :
    (256 * q + r) % (256 * m) = 256 * (q % m) + r := by
  rcases Nat.eq_zero_or_pos m with rfl | hm
  · simp
  · have h1 : 256 * q + r = 256 * m * (q / m) + (256 * (q % m) + r) := by
      have := Nat.div_add_mod q m
      ring_nf
      omega
    rw [h1, Nat.mul_add_mod]
    exact Nat.mod_eq_of_lt (by have := Nat.mod_lt q hm; omega)

theorem beToNat_natToBE : ∀ (k n : Nat), beToNat (natToBE k n) = n % 256 ^ k := by
  intro k
  induction k with
  | zero => intro n; simp [natToBE, beToNat, Nat.mod_one]
  | succ k ih =>
    intro n
    rw [natToBE, beToNat_append_one, ih]
    have h1 : n % (256 ^ (k + 1)) = 256 * (n / 256 % 256 ^ k) + n % 256 := by
      have h2 : (256 : Nat) ^ (k + 1) = 256 * 256 ^ k := by ring
      rw [h2, ← mod_mul_helper (n / 256) (n % 256) (256 ^ k)
        (Nat.mod_lt _ (by norm_num))]
      congr 1
      omega
    rw [h1]

/-! ### Signature construction and re-parsing lemmas -/

theorem render_good (ty : SType) :
    ty.render ≠ [] ∧ pyStrip ty.render = ty.render
    ∧ (∀ c ∈ ty.render,
        c ≠ ',' ∧ c ≠ '(' ∧ c ≠ ')' ∧ c ≠ '[' ∧ c ≠ ']' ∧ c ≠ ' ') := by
  cases ty <;> refine ⟨by decide, by decide, by decide⟩

theorem splitE_skip : ∀ (t : List Char),
    (∀ c ∈ t, c ≠ ',' ∧ c ≠ '(' ∧ c ≠ ')' ∧ c ≠ '[' ∧ c ≠ ']') →
    ∀ (r cur : List Char) (acc : List (List Char)),
    splitE (t ++ r) 0 cur acc = splitE r 0 (cur ++ t) acc := by
  intro t
  induction t with
  | nil => intro _ r cur acc; simp
  | cons c t ih =>
    intro h r cur acc
    obtain ⟨hc, h1, h2, h3, h4⟩ := h c (by simp)
    show splitE (c :: (t ++ r)) 0 cur acc = _
    simp only [splitE]
    rw [if_neg (by simp [hc])]
    have hb : bumpE 0 c = 0 := by
      rw [bumpE_eval, if_neg (by simp [h1, h3]), if_neg (by simp [h2, h4])]
      ring
    rw [hb, ih (fun x hx => h x (by simp [hx])) r (cur ++ [c]) acc]
    simp

theorem joinSep_comma_ne_nil (x : List Char) (xs : List (List Char))
    (hx : x ≠ []) : joinSep [','] (x :: xs) ≠ [] := by
  cases xs with
  | nil => simpa [joinSep] using hx
  | cons y ys =>
    simp only [joinSep]
    intro hcon
    rcases List.append_eq_nil.mp (List.append_eq_nil.mp hcon).1 with ⟨hx0, _⟩
    exact hx hx0

theorem splitE_joinSep : ∀ (toks : List (List Char)),
    (∀ t ∈ toks, t ≠ [] ∧ pyStrip t = t
      ∧ ∀ c ∈ t, c ≠ ',' ∧ c ≠ '(' ∧ c ≠ ')' ∧ c ≠ '[' ∧ c ≠ ']') →
    ∀ acc, splitE (joinSep [','] toks) 0 [] acc = acc ++ toks
  | [] => by intro _ acc; simp [joinSep, splitE]
  | [t] => fun h acc => by
    obtain ⟨hne, hstrip, hgood⟩ := h t (by simp)
    have h2 := splitE_skip t hgood [] [] acc
    rw [List.append_nil] at h2
    show splitE t 0 [] acc = acc ++ [t]
    rw [h2, List.nil_append]
    show (if t ≠ [] then acc ++ [pyStrip t] else acc) = acc ++ [t]
    rw [if_pos hne, hstrip]
  | t :: t2 :: rest => fun h acc => by
    obtain ⟨hne, hstrip, hgood⟩ := h t (by simp)
    have hjoin : joinSep [','] (t :: t2 :: rest)
        = t ++ (',' :: joinSep [','] (t2 :: rest)) := by
      simp [joinSep]
    rw [hjoin, splitE_skip t hgood _ [] acc, List.nil_append]
    show splitE (',' :: joinSep [','] (t2 :: rest)) 0 t acc = _
    simp only [splitE]
    rw [if_pos (by norm_num), if_pos hne, hstrip]
    rw [splitE_joinSep (t2 :: rest) (fun x hx => h x (List.mem_cons_of_mem _ hx))
      (acc ++ [t])]
    simp

theorem findIdx_append_not (p : Char → Bool) : ∀ (l1 l2 : List Char),
    (∀ c ∈ l1, p c = false) →
    List.findIdx p (l1 ++ l2) = l1.length + List.findIdx p l2 := by
  intro l1
  induction l1 with
  | nil => intro l2 _; simp
  | cons c l1 ih =>
    intro l2 h
    rw [List.cons_append, List.findIdx_cons, h c (by simp)]
    simp only [cond_false, List.length_cons]
    rw [ih l2 (fun x hx => h x (by simp [hx]))]
    omega

theorem mkSig_parts (name : List Char) (ts : List SType) :
    mkSig name ts
      = (name ++ ['(']) ++ (joinSep [','] (ts.map SType.render) ++ [')']) := by
  simp [mkSig]

theorem mkSig_assoc (name : List Char) (ts : List SType) :
    mkSig name ts
      = name ++ ('(' :: (joinSep [','] (ts.map SType.render) ++ [')'])) := by
  simp [mkSig]

theorem mkSig_interior (name : List Char) (ts : List SType)
    (hname : '(' ∉ name) :
    (mkSig name ts).contains '(' = true
    ∧ (mkSig name ts).contains ')' = true
    ∧ sliceInterior (mkSig name ts) = joinSep [','] (ts.map SType.render) := by
  have hmem1 : '(' ∈ mkSig name ts := by simp [mkSig]
  have hmem2 : ')' ∈ mkSig name ts := by simp [mkSig]
  refine ⟨List.elem_iff.mpr hmem1, List.elem_iff.mpr hmem2, ?_⟩
  have hnp : ∀ c ∈ name, (decide (c = '(') : Bool) = false := by
    intro c hc
    simp only [decide_eq_false_iff_not]
    intro hh; subst hh; exact hname hc
  have hidx : pyIndexC '(' (mkSig name ts) = name.length := by
    rw [pyIndexC, mkSig_assoc, findIdx_append_not _ name _ hnp,
      List.findIdx_cons]
    simp
  have hlen : (mkSig name ts).length
      = name.length + 1 + (joinSep [','] (ts.map SType.render)).length + 1 := by
    simp [mkSig]
    omega
  have hridx : pyRIndexC ')' (mkSig name ts) = (mkSig name ts).length - 1 := by
    have hrev : (mkSig name ts).reverse
        = ')' :: ((joinSep [','] (ts.map SType.render)).reverse
          ++ ('(' :: name.reverse)) := by
      simp [mkSig]
    rw [pyRIndexC, hrev, List.findIdx_cons]
    simp
  rw [sliceInterior, hidx, hridx, hlen, mkSig_parts]
  rw [List.drop_left' (by simp : (name ++ ['(']).length = name.length + 1)]
  rw [List.take_left'
    (by omega : (joinSep [','] (ts.map SType.render)).length
      = name.length + 1 + (joinSep [','] (ts.map SType.render)).length + 1 - 1
        - (name.length + 1))]

theorem extract_mkSig (name : List Char) (ts : List SType)
    (hname : '(' ∉ name) :
    extract_param_types (mkSig name ts) = ts.map SType.render := by
  obtain ⟨hc1, hc2, hint⟩ := mkSig_interior name ts hname
  rw [extract_param_types, if_neg (by simp [mkSig]), hint]
  cases ts with
  | nil => rfl
  | cons ty ts =>
    show (if joinSep [','] (List.map SType.render (ty :: ts)) = [] then []
      else splitE (joinSep [','] (List.map SType.render (ty :: ts))) 0 [] [])
      = List.map SType.render (ty :: ts)
    simp only [List.map_cons]
    rw [if_neg (joinSep_comma_ne_nil _ _ (render_good ty).1)]
    rw [splitE_joinSep _ ?_ []]
    · simp
    · intro t ht
      have hren : ∃ ty2 : SType, t = ty2.render := by
        rcases List.mem_cons.mp ht with rfl | ht2
        · exact ⟨ty, rfl⟩
        · obtain ⟨ty2, _, rfl⟩ := List.mem_map.mp ht2
          exact ⟨ty2, rfl⟩
      obtain ⟨ty2, rfl⟩ := hren
      obtain ⟨g1, g2, g3⟩ := render_good ty2
      exact ⟨g1, g2, fun c hc => by
        obtain ⟨x1, x2, x3, x4, x5, _⟩ := g3 c hc
        exact ⟨x1, x2, x3, x4, x5⟩⟩

/-! ### Per-type normalization lemmas -/

theorem pyReplace_0x_noX : ∀ (u : List Char), (∀ c ∈ u, c ≠ 'x') →
    pyReplace (s2l "0x") [] u = u := by
  intro u
  induction u with
  | nil => intro _; rfl
  | cons c cs ih =>
    intro h
    rw [pyReplace_cons, if_neg ?_]
    · rw [ih (fun x hx => h x (List.mem_cons_of_mem _ hx))]
    · rintro ⟨-, hp⟩
      obtain ⟨t, ht⟩ := List.isPrefixOf_iff_prefix.mp hp
      have ht2 : '0' :: ('x' :: t) = c :: cs := ht
      injection ht2 with h1 h2
      exact h 'x' (by rw [← h2]; simp) rfl

theorem isHexAny_lower {c : Char} (h : isHexAny c = true) :
    isLowerHex (lowerChar c) = true ∧ lowerChar c ≠ 'x' := by
  have hm : c ∈ s2l "0123456789abcdefABCDEF" := List.elem_iff.mp h
  simp only [s2l, List.mem_cons, List.not_mem_nil, or_false] at hm
  rcases hm with rfl | rfl | rfl | rfl | rfl | rfl | rfl | rfl | rfl | rfl | rfl
    | rfl | rfl | rfl | rfl | rfl | rfl | rfl | rfl | rfl | rfl | rfl
  all_goals exact ⟨by decide, by decide⟩

theorem pyReplace_0x_pyLower {s : List Char}
    (hall : (addrBody s).all isHexAny = true) :
    pyReplace (s2l "0x") [] (pyLower s) = pyLower (addrBody s) := by
  have hnoX : ∀ x ∈ pyLower (addrBody s), x ≠ 'x' := by
    intro x hx
    obtain ⟨c, hc, rfl⟩ := List.mem_map.mp hx
    exact (isHexAny_lower (List.all_eq_true.mp hall c hc)).2
  rw [addrBody] at hnoX ⊢
  by_cases hp : (s2l "0x").isPrefixOf s = true ∨ (s2l "0X").isPrefixOf s = true
  · rw [if_pos hp] at hnoX ⊢
    rcases hp with hp | hp
    · obtain ⟨t, ht⟩ := List.isPrefixOf_iff_prefix.mp hp
      have ht2 : '0' :: ('x' :: t) = s := ht
      subst ht2
      show pyReplace (s2l "0x") [] ('0' :: 'x' :: pyLower t) = pyLower t
      rw [pyReplace_cons, if_pos ⟨by decide, by simp [List.isPrefixOf]⟩]
      show pyReplace (s2l "0x") [] (pyLower t) = pyLower t
      exact pyReplace_0x_noX _ hnoX
    · obtain ⟨t, ht⟩ := List.isPrefixOf_iff_prefix.mp hp
      have ht2 : '0' :: ('X' :: t) = s := ht
      subst ht2
      show pyReplace (s2l "0x") [] ('0' :: 'x' :: pyLower t) = pyLower t
      rw [pyReplace_cons, if_pos ⟨by decide, by simp [List.isPrefixOf]⟩]
      show pyReplace (s2l "0x") [] (pyLower t) = pyLower t
      exact pyReplace_0x_noX _ hnoX
  · rw [if_neg hp] at hnoX ⊢
    exact pyReplace_0x_noX _ hnoX

theorem normalizeOne_c1 (ty : SType) (v : Val) (h : wtVal ty v = true) :
    normalizeOne ty.render v = .ok (c1Norm ty v) := by
  cases ty with
  | uint256 =>
    cases v with
    | vInt n => rfl
    | vBool b => simp [wtVal] at h
    | vStr s => simp [wtVal] at h
    | vBytes bs => simp [wtVal] at h
    | vList vs => simp [wtVal] at h
  | sbool =>
    cases v with
    | vBool b => rfl
    | vInt n => simp [wtVal] at h
    | vStr s => simp [wtVal] at h
    | vBytes bs => simp [wtVal] at h
    | vList vs => simp [wtVal] at h
  | address =>
    cases v with
    | vInt n => simp [wtVal] at h
    | vBool b => simp [wtVal] at h
    | vBytes bs => simp [wtVal] at h
    | vList vs => simp [wtVal] at h
    | vStr s =>
      simp only [wtVal, Bool.and_eq_true, decide_eq_true_eq] at h
      obtain ⟨hall, hlen⟩ := h
      show Except.ok (Val.vStr (s2l "0x" ++
        (if (pyReplace (s2l "0x") [] (pyLower s)).length < 40
         then zfill 40 (pyReplace (s2l "0x") [] (pyLower s))
         else pyReplace (s2l "0x") [] (pyLower s))))
        = Except.ok (c1Norm .address (.vStr s))
      rw [pyReplace_0x_pyLower hall]
      have hlen2 : (pyLower (addrBody s)).length ≤ 40 := by
        simpa [pyLower] using hlen
      have hite : (if (pyLower (addrBody s)).length < 40
          then zfill 40 (pyLower (addrBody s)) else pyLower (addrBody s))
          = zfill 40 (pyLower (addrBody s)) := by
        by_cases h40 : (pyLower (addrBody s)).length < 40
        · rw [if_pos h40]
        · rw [if_neg h40, zfill, show 40 - (pyLower (addrBody s)).length = 0
            from by omega]
          simp
      rw [hite]
      rfl

/-! ### Per-type ABI word lemmas -/

theorem zfill_length {n : Nat} {s : List Char} (h : s.length ≤ n) :
    (zfill n s).length = n := by
  simp [zfill]
  omega

theorem zfill_lower {n : Nat} {s : List Char}
    (h : ∀ c ∈ s, isLowerHex c = true) :
    ∀ c ∈ zfill n s, isLowerHex c = true := by
  intro c hc
  rcases List.mem_append.mp hc with h1 | h2
  · have := List.eq_of_mem_replicate h1
    subst this
    decide
  · exact h c h2

theorem pyLower_addr_lower {s : List Char}
    (hall : s.all isHexAny = true) :
    ∀ c ∈ pyLower s, isLowerHex c = true := by
  intro c hc
  obtain ⟨x, hx, rfl⟩ := List.mem_map.mp hc
  exact (isHexAny_lower (List.all_eq_true.mp hall x hx)).1

theorem pow256_32 : (256 : Nat) ^ 32 = 2 ^ 256 := by decide

theorem word_c1 (ty : SType) (v : Val) (h : wtVal ty v = true) :
    ∃ w, abiEncodeOne ty.aty (c1Norm ty v) = .ok w
      ∧ w.length = 32 ∧ (∀ b ∈ w, b < 256)
      ∧ abiDecodeOne ty.aty w = .ok (c1Norm ty v) := by
  cases ty with
  | uint256 =>
    cases v with
    | vBool b => simp [wtVal] at h
    | vStr s => simp [wtVal] at h
    | vBytes bs => simp [wtVal] at h
    | vList vs => simp [wtVal] at h
    | vInt n =>
      simp only [wtVal, decide_eq_true_eq] at h
      obtain ⟨h0, h256⟩ := h
      refine ⟨natToBE 32 n.toNat, ?_, natToBE_length _ _, natToBE_lt _ _, ?_⟩
      · show (if 0 ≤ n ∧ n < (2 : Int) ^ 256
            then Except.ok (natToBE 32 n.toNat)
            else Except.error (s2l "value out of range for uint256"))
          = Except.ok (natToBE 32 n.toNat)
        rw [if_pos ⟨h0, h256⟩]
      · show Except.ok (Val.vInt (Int.ofNat (beToNat (natToBE 32 n.toNat))))
          = Except.ok (Val.vInt n)
        rw [beToNat_natToBE]
        have hlt : n.toNat < 256 ^ 32 := by
          rw [pow256_32]
          exact (Int.toNat_lt h0).mpr (by exact_mod_cast h256)
        rw [Nat.mod_eq_of_lt hlt]
        have hcast : Int.ofNat n.toNat = n := by
          exact_mod_cast Int.toNat_of_nonneg h0
        rw [hcast]
  | sbool =>
    cases v with
    | vInt n => simp [wtVal] at h
    | vStr s => simp [wtVal] at h
    | vBytes bs => simp [wtVal] at h
    | vList vs => simp [wtVal] at h
    | vBool b =>
      refine ⟨natToBE 32 (if b then 1 else 0), rfl, natToBE_length _ _,
        natToBE_lt _ _, ?_⟩
      cases b with
      | false =>
        show abiDecodeOne .bool (natToBE 32 0) = Except.ok (Val.vBool false)
        rw [abiDecodeOne, beToNat_natToBE]
        norm_num
      | true =>
        show abiDecodeOne .bool (natToBE 32 1) = Except.ok (Val.vBool true)
        rw [abiDecodeOne, beToNat_natToBE]
        have h1 : (1 : Nat) % 256 ^ 32 = 1 :=
          Nat.mod_eq_of_lt (Nat.one_lt_pow (by norm_num) (by norm_num))
        rw [h1]
        norm_num
  | address =>
    cases v with
    | vInt n => simp [wtVal] at h
    | vBool b => simp [wtVal] at h
    | vBytes bs => simp [wtVal] at h
    | vList vs => simp [wtVal] at h
    | vStr s =>
      simp only [wtVal, Bool.and_eq_true, decide_eq_true_eq] at h
      obtain ⟨hall, hlen⟩ := h
      have hlenA : (zfill 40 (pyLower (addrBody s))).length = 40 :=
        zfill_length (by simpa [pyLower] using hlen)
      have hlowA : ∀ c ∈ zfill 40 (pyLower (addrBody s)), isLowerHex c = true :=
        zfill_lower (pyLower_addr_lower hall)
      obtain ⟨bs, hok, hhex, hbslen, hbnd⟩ :=
        hexToBytes_lower (zfill 40 (pyLower (addrBody s))) hlowA
          (by rw [hlenA])
      refine ⟨List.replicate 12 0 ++ bs, ?_, ?_, ?_, ?_⟩
      · show abiEncodeOne .address
            (.vStr (s2l "0x" ++ zfill 40 (pyLower (addrBody s)))) = _
        rw [abiEncodeOne]
        rw [if_pos ⟨List.take_left' (by decide),
          by rw [List.length_append, hlenA]; decide⟩]
        rw [List.drop_left' (by decide), hok]
      · rw [List.length_append, List.length_replicate, hbslen, hlenA]
      · intro b hb
        rcases List.mem_append.mp hb with h1 | h2
        · have := List.eq_of_mem_replicate h1; omega
        · exact hbnd b h2
      · have hd : (List.replicate 12 (0 : Nat) ++ bs).drop 12 = bs :=
          List.drop_left' (by simp)
        show Except.ok (Val.vStr (s2l "0x"
            ++ bytesToHex ((List.replicate 12 (0 : Nat) ++ bs).drop 12)))
          = Except.ok (Val.vStr (s2l "0x" ++ zfill 40 (pyLower (addrBody s))))
        rw [hd, hhex]

/-! ### List-level round-trip core -/

theorem parseATy_render (ty : SType) : parseATy ty.render = .ok ty.aty := by
  cases ty <;> rfl

theorem format_value_c1 (ty : SType) (v : Val) (h : wtVal ty v = true) :
    format_value ty.render (c1Norm ty v) = .ok (c1Norm ty v) := by
  cases ty with
  | address =>
    cases v with
    | vStr s => rfl
    | vInt n => simp [wtVal] at h
    | vBool b => simp [wtVal] at h
    | vBytes bs => simp [wtVal] at h
    | vList vs => simp [wtVal] at h
  | uint256 =>
    cases v with
    | vInt n => rfl
    | vStr s => simp [wtVal] at h
    | vBool b => simp [wtVal] at h
    | vBytes bs => simp [wtVal] at h
    | vList vs => simp [wtVal] at h
  | sbool =>
    cases v with
    | vBool b => rfl
    | vInt n => simp [wtVal] at h
    | vStr s => simp [wtVal] at h
    | vBytes bs => simp [wtVal] at h
    | vList vs => simp [wtVal] at h

theorem c1_core : ∀ (ts : List SType) (vals : List Val),
    vals.length = ts.length →
    (∀ p ∈ List.zip ts vals, wtVal p.1 p.2 = true) →
    ∃ (normed : List Val) (bytes : List Nat),
      normalize_parameters (ts.map SType.render) vals = .ok normed
      ∧ normed = (List.zip ts vals).map (fun p => c1Norm p.1 p.2)
      ∧ abiEncode (ts.map SType.render) normed = .ok bytes
      ∧ bytes.length = 32 * ts.length
      ∧ (∀ b ∈ bytes, b < 256)
      ∧ abiDecode (ts.map SType.render) bytes = .ok normed := by
  intro ts
  induction ts with
  | nil =>
    intro vals hlen _
    have hv : vals = [] := List.length_eq_zero.mp hlen
    subst hv
    exact ⟨[], [], rfl, rfl, rfl, by simp, by simp, rfl⟩
  | cons ty ts ih =>
    intro vals hlen hwt
    cases vals with
    | nil => simp at hlen
    | cons v vs =>
      have hwt0 : wtVal ty v = true := hwt (ty, v) (by simp)
      obtain ⟨normed, bytes, hn, hne, he, hblen, hbnd, hd⟩ :=
        ih vs (by simpa using hlen) (fun p hp => hwt p (by simp [hp]))
      obtain ⟨w, hew, hwlen, hwbnd, hdw⟩ := word_c1 ty v hwt0
      refine ⟨c1Norm ty v :: normed, w ++ bytes, ?_, ?_, ?_, ?_, ?_, ?_⟩
      · show normalize_parameters (ty.render :: ts.map SType.render) (v :: vs)
          = Except.ok (c1Norm ty v :: normed)
        rw [normalize_parameters, normalizeOne_c1 ty v hwt0]
        simp [bind, Except.bind, hn]
      · simp [hne]
      · show abiEncode (ty.render :: ts.map SType.render)
            (c1Norm ty v :: normed) = Except.ok (w ++ bytes)
        rw [abiEncode, parseATy_render]
        simp [bind, Except.bind, hew, he]
      · simp only [List.length_append, hwlen, hblen, List.length_cons]
        ring
      · intro b hb
        rcases List.mem_append.mp hb with h1 | h2
        · exact hwbnd b h1
        · exact hbnd b h2
      · show abiDecode (ty.render :: ts.map SType.render) (w ++ bytes)
          = Except.ok (c1Norm ty v :: normed)
        rw [abiDecode, if_neg (by
          simp only [List.length_append, hwlen]
          omega)]
        rw [parseATy_render]
        rw [List.take_left' hwlen, List.drop_left' hwlen]
        simp [bind, Except.bind, hdw, hd]

/-! ### Decode-side assembly lemmas -/

theorem render_no_space (ty : SType) : (SType.render ty).contains ' ' = false := by
  cases ty <;> decide

theorem buildDParams_c1 : ∀ (ts : List SType) (vals : List Val) (i : Nat),
    vals.length = ts.length →
    (∀ p ∈ List.zip ts vals, wtVal p.1 p.2 = true) →
    ∃ dps, buildDParams i (ts.map SType.render)
        ((List.zip ts vals).map (fun p => c1Norm p.1 p.2)) = .ok dps
      ∧ dps.map DParam.value
        = (List.zip ts vals).map (fun p => c1Norm p.1 p.2) := by
  intro ts
  induction ts with
  | nil =>
    intro vals i hlen _
    have hv : vals = [] := List.length_eq_zero.mp hlen
    subst hv
    exact ⟨[], rfl, rfl⟩
  | cons ty ts ih =>
    intro vals i hlen hwt
    cases vals with
    | nil => simp at hlen
    | cons v vs =>
      have hwt0 : wtVal ty v = true := hwt (ty, v) (by simp)
      obtain ⟨dps, hdp, hmap⟩ := ih vs (i + 1) (by simpa using hlen)
        (fun p hp => hwt p (by simp [hp]))
      refine ⟨⟨s2l "param" ++ natToDec i, ty.render, c1Norm ty v⟩ :: dps, ?_, ?_⟩
      · show buildDParams i (ty.render :: ts.map SType.render)
            (c1Norm ty v :: (List.zip ts vs).map (fun p => c1Norm p.1 p.2))
          = _
        rw [buildDParams]
        simp only [render_no_space ty, Bool.false_eq_true, if_false]
        rw [format_value_c1 ty v hwt0]
        simp [bind, Except.bind, hdp]
      · simp [hmap]

theorem bytesToHex_not_0x (bytes : List Nat) (hne : bytes ≠ []) :
    (s2l "0x").isPrefixOf (bytesToHex bytes) = false := by
  cases bytes with
  | nil => simp at hne
  | cons b bs =>
    rw [bytesToHex_cons]
    show (s2l "0x").isPrefixOf
      (hexDigit (b / 16) :: hexDigit (b % 16) :: bytesToHex bs) = false
    have hx : hexDigit (b % 16) ≠ 'x' :=
      hexDigit_ne_x (Nat.mod_lt _ (by norm_num))
    simp only [List.isPrefixOf, Bool.and_eq_true, beq_iff_eq,
      Bool.and_eq_false_iff]
    by_cases h0 : '0' = hexDigit (b / 16)
    · simp [h0.symm]
      intro hcon
      exact absurd hcon.symm hx
    · simp [show ('0' == hexDigit (b / 16)) = false from
        beq_eq_false_iff_ne.mpr h0]

theorem bytesToHex_ne_nil {bytes : List Nat} (hne : bytes ≠ []) :
    bytesToHex bytes ≠ [] := by
  cases bytes with
  | nil => simp at hne
  | cons b bs => rw [bytesToHex_cons]; simp [byteToHex]

theorem decode_parameters_c1 (ts : List SType) (normed : List Val)
    (bytes : List Nat) (dps : List DParam)
    (hd : abiDecode (ts.map SType.render) bytes = .ok normed)
    (hbnd : ∀ b ∈ bytes, b < 256)
    (hdp : buildDParams 0 (ts.map SType.render) normed = .ok dps) :
    decode_parameters (bytesToHex bytes) (ts.map SType.render) = .ok dps := by
  cases ts with
  | nil =>
    simp only [List.map_nil] at hd hdp
    have hbytes : bytes = [] := by
      by_contra hcon
      simp [abiDecode, hcon] at hd
    subst hbytes
    obtain rfl : normed = [] := by
      have hd2 := hd.symm
      rw [show abiDecode ([] : List (List Char)) ([] : List Nat) = .ok []
        from rfl] at hd2
      simpa using hd2
    obtain rfl : dps = [] := by
      have hdp2 := hdp.symm
      rw [show buildDParams 0 ([] : List (List Char)) ([] : List Val) = .ok []
        from rfl] at hdp2
      simpa using hdp2
    rfl
  | cons ty ts2 =>
    simp only [List.map_cons] at hd hdp
    have hbne : bytes ≠ [] := by
      intro hcon
      subst hcon
      simp [abiDecode] at hd
    have htypes : (ty.render :: ts2.map SType.render).map
        (fun p => if p.contains ' ' then p.take (pyIndexC ' ' p) else p)
        = ty.render :: ts2.map SType.render := by
      apply (List.map_congr_left ?_).trans (List.map_id _)
      intro t ht
      have hren : ∃ ty2 : SType, t = ty2.render := by
        rcases List.mem_cons.mp ht with rfl | ht2
        · exact ⟨ty, rfl⟩
        · obtain ⟨ty2, _, rfl⟩ := List.mem_map.mp ht2
          exact ⟨ty2, rfl⟩
      obtain ⟨ty2, rfl⟩ := hren
      rw [if_neg (by rw [render_no_space ty2]; simp)]
      rfl
    rw [decode_parameters,
      if_neg (by simp [bytesToHex_ne_nil hbne]),
      if_neg (by simp [bytesToHex_not_0x bytes hbne])]
    simp only [List.map_cons, bind, Except.bind,
      hexToBytes_bytesToHex bytes hbnd, htypes, hd, hdp]

theorem selector_length8 (k : List Char → List Nat)
    (hk : ∀ s, (k s).length = 32) (sig : List Char) :
    (get_function_selector k sig).length = 8 := by
  simp only [get_function_selector, bytesToHex_length, List.length_take, hk]
  omega

theorem encode_eval (k : List Char → List Nat) (sig : List Char)
    (vals normed : List Val) (bytes : List Nat)
    (hlen : vals.length = (extract_param_types sig).length)
    (hn : normalize_parameters (extract_param_types sig) vals = .ok normed)
    (he : abiEncode (extract_param_types sig) normed = .ok bytes) :
    encode_function_call k sig vals
      = .ok (.success
          (s2l "0x" ++ (get_function_selector k sig ++ bytesToHex bytes))
          (s2l "0x" ++ get_function_selector k sig) sig vals) := by
  rw [encode_function_call]
  simp [pyTry, bind, Except.bind, hlen, hn, he]

theorem decode_eval (lookup : List Char → Except Err (Option SignatureEntry))
    (weiFmt : Int → List Char) (selHex body : List Char)
    (entry : SignatureEntry) (dps : List DParam)
    (hsel8 : selHex.length = 8)
    (hlook : lookup (s2l "0x" ++ selHex) = .ok (some entry))
    (hdec : decode_parameters body entry.params = .ok dps) :
    decode_calldata lookup weiFmt (s2l "0x" ++ (selHex ++ body))
      = .ok (.success (s2l "0x" ++ selHex) entry.name entry.signature dps
          (format_human_readable weiFmt entry.name dps)) := by
  have hassoc : s2l "0x" ++ (selHex ++ body) = (s2l "0x" ++ selHex) ++ body := by
    simp
  rw [decode_calldata]
  rw [if_neg (by
    push_neg
    refine ⟨fun hcon => by simp [s2l] at hcon, ?_⟩
    have h2 : (s2l "0x").length = 2 := rfl
    simp only [List.length_append, hsel8, h2]
    omega)]
  have hpre : (s2l "0x").isPrefixOf (s2l "0x" ++ (selHex ++ body)) = true := by
    rw [List.isPrefixOf_iff_prefix]
    exact List.prefix_append _ _
  rw [if_neg (not_not_intro hpre)]
  have htake : (s2l "0x" ++ (selHex ++ body)).take 10 = s2l "0x" ++ selHex := by
    rw [hassoc]
    exact List.take_left' (by rw [List.length_append, hsel8]; decide)
  have hdrop : (s2l "0x" ++ (selHex ++ body)).drop 10 = body := by
    rw [hassoc]
    exact List.drop_left' (by rw [List.length_append, hsel8]; decide)
  simp only [htake, hdrop, hlook, bind, Except.bind, pyTry, hdec]

/-- C1 amended: for every function signature built from supported static
parameter types (`address`, `uint256`, `bool`) and every value list of
matching length whose values are type-appropriate (a hex address string
of at most 40 digits with optional `0x`/`0X` prefix, an in-range
unsigned 256-bit integer, a boolean), `encode_function_call` succeeds,
and `decode_calldata` on the resulting calldata — with the signature
known to the directory under the computed selector — returns the
`decoded: True` success shape whose parameter values equal the
originals after type-appropriate normalization (addresses lower-cased,
zero-padded to 40 hex digits and `0x`-prefixed; numeric and boolean
values unchanged).  Without the type-appropriateness condition the
claim fails (see the counterexample). -/
theorem C1_amended (k : List Char → List Nat)
    (hk : ∀ s, (k s).length = 32 ∧ ∀ b ∈ k s, b < 256)
    (weiFmt : Int → List Char)
    (lookup : List Char → Except Err (Option SignatureEntry))
    (name entryName : List Char) (ts : List SType) (vals : List Val)
    (hname : '(' ∉ name)
    (hlen : vals.length = ts.length)
    (hwt : ∀ p ∈ List.zip ts vals, wtVal p.1 p.2 = true)
    (hlook : lookup (s2l "0x" ++ get_function_selector k (mkSig name ts))
      = .ok (some ⟨entryName, mkSig name ts, ts.map SType.render⟩)) :
    ∃ (body : List Char) (params : List DParam),
      encode_function_call k (mkSig name ts) vals
        = .ok (.success
            (s2l "0x" ++ (get_function_selector k (mkSig name ts) ++ body))
            (s2l "0x" ++ get_function_selector k (mkSig name ts))
            (mkSig name ts) vals)
      ∧ decode_calldata lookup weiFmt
          (s2l "0x" ++ (get_function_selector k (mkSig name ts) ++ body))
        = .ok (.success
            (s2l "0x" ++ get_function_selector k (mkSig name ts))
            entryName (mkSig name ts) params
            (format_human_readable weiFmt entryName params))
      ∧ params.map DParam.value
        = (List.zip ts vals).map (fun p => c1Norm p.1 p.2) := by
  obtain ⟨normed, bytes, hn, hne, he, hblen, hbnd, hd⟩ := c1_core ts vals hlen hwt
  obtain ⟨dps, hdp, hdpmap⟩ := buildDParams_c1 ts vals 0 hlen hwt
  have hext := extract_mkSig name ts hname
  refine ⟨bytesToHex bytes, dps, ?_, ?_, hdpmap⟩
  · exact encode_eval k (mkSig name ts) vals normed bytes
      (by rw [hext, hlen, List.length_map]) (by rw [hext]; exact hn)
      (by rw [hext]; exact he)
  · have hdec : decode_parameters (bytesToHex bytes) (ts.map SType.render)
        = .ok dps :=
      decode_parameters_c1 ts normed bytes dps hd hbnd
        (by rw [← hne] at hdp; exact hdp)
    exact decode_eval lookup weiFmt _ _ _ dps
      (selector_length8 k (fun s => (hk s).1) _) hlook hdec

/-- Concrete directory used by the C1 witness: it knows exactly the
selector that `k0` assigns to `transfer(address,uint256)`. -/
def c1LookupW : List Char → Except Err (Option SignatureEntry) :=
  fun s =>
    if s = s2l "0x19000000" then
      .ok (some ⟨s2l "transfer", s2l "transfer(address,uint256)",
        [s2l "address", s2l "uint256"]⟩)
    else .ok none

theorem k0_spec : ∀ s, (k0 s).length = 32 ∧ ∀ b ∈ k0 s, b < 256 := by
  intro s
  constructor
  · simp [k0]
  · intro b hb
    simp [k0] at hb
    rcases hb with rfl | rfl
    · exact Nat.mod_lt _ (by norm_num)
    · norm_num

set_option maxRecDepth 1000000 in
/-- Witness for C1 at the concrete signature
`transfer(address,uint256)` with a short mixed-case address (exercising
the lower-casing and zero-padding) and the value `1000`. -/
theorem C1_witness :
    (∀ p ∈ List.zip [SType.address, SType.uint256]
        [Val.vStr (s2l "0xAb"), Val.vInt 1000], wtVal p.1 p.2 = true)
    ∧ ∃ (body : List Char) (params : List DParam),
      encode_function_call k0
          (mkSig (s2l "transfer") [SType.address, SType.uint256])
          [Val.vStr (s2l "0xAb"), Val.vInt 1000]
        = .ok (.success
            (s2l "0x" ++ (get_function_selector k0
              (mkSig (s2l "transfer") [SType.address, SType.uint256]) ++ body))
            (s2l "0x" ++ get_function_selector k0
              (mkSig (s2l "transfer") [SType.address, SType.uint256]))
            (mkSig (s2l "transfer") [SType.address, SType.uint256])
            [Val.vStr (s2l "0xAb"), Val.vInt 1000])
      ∧ decode_calldata c1LookupW wf0
          (s2l "0x" ++ (get_function_selector k0
            (mkSig (s2l "transfer") [SType.address, SType.uint256]) ++ body))
        = .ok (.success
            (s2l "0x" ++ get_function_selector k0
              (mkSig (s2l "transfer") [SType.address, SType.uint256]))
            (s2l "transfer")
            (mkSig (s2l "transfer") [SType.address, SType.uint256]) params
            (format_human_readable wf0 (s2l "transfer") params))
      ∧ params.map DParam.value
        = (List.zip [SType.address, SType.uint256]
            [Val.vStr (s2l "0xAb"), Val.vInt 1000]).map
            (fun p => c1Norm p.1 p.2) :=
  ⟨by decide,
   C1_amended k0 k0_spec wf0 c1LookupW (s2l "transfer") (s2l "transfer")
     [SType.address, SType.uint256] [Val.vStr (s2l "0xAb"), Val.vInt 1000]
     (by decide) (by decide) (by decide) (by decide)⟩
